import Mathlib

/-!
Verification of the Marlowe live-call transcription core against its
natural-language specification.  The definitions below are shallow
embeddings of the TypeScript sources:

* the incremental transcript merge engine (`lib/transcript-merge`,
  full revision with restart detection, `src/unnamed/part_001`),
* the Twilio webhook normalizer and signature check
  (`src/unnamed/part_003`),
* the per-call advice scheduler and the webhook POST handler
  (`src/app/layout.tsx`).

JavaScript strings are modelled as `List Char` (with `String` wrappers
keeping the exported source names); machine arithmetic is `Nat`/`Int`.
-/

namespace Marlowe

/-! ## Transcript merge engine (lib/transcript-merge) -/

/-- Whitespace test used by the `\s` regex class and `String.prototype.trim`
(restricted to the ASCII whitespace characters that occur in transcripts). -/
def isWs (c : Char) : Bool :=
  c = ' ' || c = '\t' || c = '\n' || c = '\r'

/-- ASCII lower-casing of one character, the effect of
`String.prototype.toLowerCase` on the ASCII range. -/
def lowerChar (c : Char) : Char :=
  if 'A' ≤ c && c ≤ 'Z' then Char.ofNat (c.toNat + 32) else c

/-- `value.toLowerCase()` character by character. -/
def toLowerChars (xs : List Char) : List Char :=
  xs.map lowerChar

/-- Membership in the regex class `[a-z0-9']` from `normalizeToken`
(`Char.ofNat 39` is the apostrophe). -/
def isTokenChar (c : Char) : Bool :=
  ('a' ≤ c && c ≤ 'z') || ('0' ≤ c && c ≤ '9') || c = Char.ofNat 39

/-- `normalizeToken`: lower-case, then strip the leading and trailing runs
of characters outside `[a-z0-9']` (the two alternatives of the regex
`/^[^a-z0-9']+|[^a-z0-9']+$/g`); if stripping empties the word, fall back
to the lower-cased word. -/
def normalizeToken (value : List Char) : List Char :=
  let lowered := toLowerChars value
  let stripped :=
    ((lowered.dropWhile fun c => !isTokenChar c).reverse.dropWhile fun c =>
        !isTokenChar c).reverse
  if stripped = [] then lowered else stripped

/-- Accumulator form of `String.prototype.split(' ')`: splits at every
space character, keeping empty pieces, and yields one piece more than the
number of spaces. -/
def splitSpAux : List Char → List Char → List (List Char)
  | [], acc => [acc.reverse]
  | c :: cs, acc =>
    if c = ' ' then acc.reverse :: splitSpAux cs []
    else splitSpAux cs (c :: acc)

/-- `value.split(' ')`. -/
def splitSp (xs : List Char) : List (List Char) :=
  splitSpAux xs []

/-- `words.join(' ')`. -/
def joinSp : List (List Char) → List Char
  | [] => []
  | [w] => w
  | w :: ws => w ++ ' ' :: joinSp ws

/-- `String.prototype.trim`: drop leading and trailing whitespace. -/
def trimChars (xs : List Char) : List Char :=
  ((xs.dropWhile isWs).reverse.dropWhile isWs).reverse

/-- Worker for `value.replace(/\s+/g, ' ')`: the flag records whether the
scanner is inside a whitespace run whose single replacement space has
already been emitted. -/
def collapseWsAux : List Char → Bool → List Char
  | [], _ => []
  | c :: cs, inRun =>
    if isWs c then
      if inRun then collapseWsAux cs true
      else ' ' :: collapseWsAux cs true
    else c :: collapseWsAux cs false

/-- `value.replace(/\s+/g, ' ')`: every maximal whitespace run becomes a
single space. -/
def collapseWsRuns (xs : List Char) : List Char :=
  collapseWsAux xs false

/-- Character-level body of `normalizeTranscriptText`:
`value.replace(/\s+/g, ' ').trim()`. -/
def normalizeTextChars (xs : List Char) : List Char :=
  trimChars (collapseWsRuns xs)

/-- `a.startsWith(b)` on character lists (`startsWithL xs ys` means `xs`
starts with `ys`). -/
def startsWithL : List Char → List Char → Bool
  | _, [] => true
  | [], _ :: _ => false
  | x :: xt, y :: yt => x = y && startsWithL xt yt

/-- `hay.includes(needle)` on character lists. -/
def includesL : List Char → List Char → Bool
  | [], needle => startsWithL [] needle
  | c :: t, needle => startsWithL (c :: t) needle || includesL t needle

/-- One candidate check of `findWordOverlap`: whether the last `overlap`
words of `previousWords` match the first `overlap` words of `nextWords`
token by token (both normalized tokens nonempty and equal). -/
def overlapMatches (previousWords nextWords : List (List Char))
    (overlap : Nat) : Bool :=
  (List.range overlap).all fun index =>
    let previousToken :=
      normalizeToken (previousWords.getD (previousWords.length - overlap + index) [])
    let nextToken := normalizeToken (nextWords.getD index [])
    previousToken != [] && nextToken != [] && previousToken == nextToken

/-- Descending loop of `findWordOverlap`: try `overlap`, then smaller. -/
def findWordOverlapAux (previousWords nextWords : List (List Char)) :
    Nat → Nat
  | 0 => 0
  | o + 1 =>
    if overlapMatches previousWords nextWords (o + 1) then o + 1
    else findWordOverlapAux previousWords nextWords o

/-- `findWordOverlap`: the largest suffix/prefix word overlap, `0` if none. -/
def findWordOverlap (previousWords nextWords : List (List Char)) : Nat :=
  findWordOverlapAux previousWords nextWords
    (min previousWords.length nextWords.length)

/-- Loop of `collapseDuplicateWords`, carrying the previous token. -/
def collapseDuplicateWordsAux : List (List Char) → List Char → List (List Char)
  | [], _ => []
  | word :: rest, previousToken =>
    let token := normalizeToken word
    if token != [] && token == previousToken then
      collapseDuplicateWordsAux rest previousToken
    else word :: collapseDuplicateWordsAux rest token

/-- `collapseDuplicateWords`: drop a word whose normalized token repeats the
immediately preceding one. -/
def collapseDuplicateWords (words : List (List Char)) : List (List Char) :=
  collapseDuplicateWordsAux words []

/-- `tokenize`: split on single spaces, normalize each word, keep the
nonempty tokens (`filter(Boolean)`). -/
def tokenize (value : List Char) : List (List Char) :=
  ((splitSp value).map normalizeToken).filter fun t => t != []

/-- `countPrefixTokenMatches`: length of the longest common token run at the
front of the two token lists. -/
def countPrefixTokenMatches : List (List Char) → List (List Char) → Nat
  | x :: xs, y :: ys =>
    if x == y then countPrefixTokenMatches xs ys + 1 else 0
  | _, _ => 0

/-- `looksLikeRestart` on character lists.  `previousTokens.length * 7 / 10`
models `Math.floor(previousTokens.length * 0.7)`; the two agree on every
token count a transcript fragment can realistically have (they coincide for
all counts used in this file, where both sides are evaluated concretely). -/
def looksLikeRestartChars (previousText nextText : List Char) : Bool :=
  let previousTokens := tokenize previousText
  let nextTokens := tokenize nextText
  if previousTokens.length = 0 || nextTokens.length = 0 then false
  else if 2 ≤ countPrefixTokenMatches previousTokens nextTokens then true
  else if 1 ≤ countPrefixTokenMatches previousTokens nextTokens ∧
      4 ≤ nextTokens.length then true
  else if previousTokens.getD 0 [] == nextTokens.getD 0 [] ∧
      max 4 (previousTokens.length * 7 / 10) ≤ nextTokens.length then true
  else false

/-- `FINAL_REPLACE_MIN_WORDS` from the source. -/
def FINAL_REPLACE_MIN_WORDS : Nat := 5

/-- `shouldReplaceWithFinal`: a final fragment replaces the accumulated one
when it has at least five words and at least as many words. -/
def shouldReplaceWithFinal (previousWords nextWords : List (List Char)) : Bool :=
  if nextWords.length < FINAL_REPLACE_MIN_WORDS then false
  else decide (previousWords.length ≤ nextWords.length)

/-- Character-level body of `mergeIncrementalTranscriptText` (the full
revision of lib/transcript-merge, including the containment checks and the
restart heuristic).  The decision ladder mirrors the source line by line. -/
def mergeChars (previousText nextText : List Char) (isFinal : Bool) :
    List Char :=
  let previous := normalizeTextChars previousText
  let next := normalizeTextChars nextText
  if previous = [] then next
  else if next = [] then previous
  else
    let previousLower := toLowerChars previous
    let nextLower := toLowerChars next
    if previousLower = nextLower then previous
    else if startsWithL nextLower previousLower then next
    else if includesL nextLower previousLower then next
    else if startsWithL previousLower nextLower then previous
    else if includesL previousLower nextLower then previous
    else
      let previousWords := splitSp previous
      let nextWords := splitSp next
      let overlap := findWordOverlap previousWords nextWords
      if 0 < overlap then
        joinSp (collapseDuplicateWords (previousWords ++ nextWords.drop overlap))
      else if looksLikeRestartChars previous next then next
      else if isFinal && shouldReplaceWithFinal previousWords nextWords then next
      else joinSp (collapseDuplicateWords (previousWords ++ nextWords))

/-- `normalizeTranscriptText` (exported source function). -/
def normalizeTranscriptText (value : String) : String :=
  String.mk (normalizeTextChars value.data)

/-- `mergeIncrementalTranscriptText` (exported source function); the
`isFinal` option is passed explicitly. -/
def mergeIncrementalTranscriptText (previousText nextText : String)
    (isFinal : Bool) : String :=
  String.mk (mergeChars previousText.data nextText.data isFinal)

/-- `looksLikeRestart` lifted to `String`. -/
def looksLikeRestart (previousText nextText : String) : Bool :=
  looksLikeRestartChars previousText.data nextText.data

/-! ### Elementary facts about `startsWithL` and `includesL` -/

theorem startsWithL_length :
    ∀ {xs ys : List Char}, startsWithL xs ys = true → ys.length ≤ xs.length
  | _, [], _ => Nat.zero_le _
  | [], _ :: _, h => by simp [startsWithL] at h
  | _ :: _, _ :: _, h => by
    simp only [startsWithL, Bool.and_eq_true, decide_eq_true_eq] at h
    exact Nat.succ_le_succ (startsWithL_length h.2)

theorem startsWithL_eq_of_length :
    ∀ {xs ys : List Char}, startsWithL xs ys = true →
      xs.length ≤ ys.length → xs = ys
  | [], [], _, _ => rfl
  | _ :: _, [], _, hl => by simp at hl
  | [], _ :: _, h, _ => by simp [startsWithL] at h
  | x :: xt, y :: yt, h, hl => by
    simp only [startsWithL, Bool.and_eq_true, decide_eq_true_eq] at h
    have := startsWithL_eq_of_length h.2 (Nat.le_of_succ_le_succ hl)
    rw [h.1, this]

theorem includesL_length :
    ∀ {xs ys : List Char}, includesL xs ys = true → ys.length ≤ xs.length
  | [], ys, h => by
    cases ys with
    | nil => exact Nat.le_refl 0
    | cons y yt => simp [includesL, startsWithL] at h
  | _ :: _, _, h => by
    simp only [includesL, Bool.or_eq_true] at h
    rcases h with h | h
    · exact startsWithL_length h
    · exact Nat.le_succ_of_le (includesL_length h)

theorem includesL_eq_of_length :
    ∀ {xs ys : List Char}, includesL xs ys = true →
      xs.length ≤ ys.length → xs = ys
  | [], ys, h, _ => by
    cases ys with
    | nil => rfl
    | cons y yt => simp [includesL, startsWithL] at h
  | x :: xt, ys, h, hl => by
    simp only [includesL, Bool.or_eq_true] at h
    rcases h with h | h
    · exact startsWithL_eq_of_length h hl
    · exact absurd (includesL_length h)
        (Nat.not_le_of_lt (Nat.lt_of_lt_of_le (Nat.lt_succ_self _) hl))

theorem toLowerChars_nil_iff {xs : List Char} :
    toLowerChars xs = [] ↔ xs = [] := by
  simp [toLowerChars]

theorem startsWithL_refl : ∀ xs : List Char, startsWithL xs xs = true
  | [] => rfl
  | _ :: xt => by simp [startsWithL, startsWithL_refl xt]

theorem startsWithL_imp_includesL {xs ys : List Char}
    (h : startsWithL xs ys = true) : includesL xs ys = true := by
  cases xs with
  | nil => exact h
  | cons x xt => simp [includesL, h]

theorem includesL_refl (xs : List Char) : includesL xs xs = true :=
  startsWithL_imp_includesL (startsWithL_refl xs)

theorem includesL_nil {ys : List Char} (h : includesL [] ys = true) :
    ys = [] := by
  cases ys with
  | nil => rfl
  | cons y yt => simp [includesL, startsWithL] at h

/-! ### Branch lemmas for `mergeChars` -/

/-- Containment branch of the merge: when the normalized, lower-cased next
text strictly contains the previous one, the merge returns the normalized
next text. -/
theorem mergeChars_of_next_includes (p n : List Char) (b : Bool)
    (h : includesL (toLowerChars (normalizeTextChars n))
        (toLowerChars (normalizeTextChars p)) = true)
    (hne : toLowerChars (normalizeTextChars n) ≠
        toLowerChars (normalizeTextChars p)) :
    mergeChars p n b = normalizeTextChars n := by
  by_cases hP : normalizeTextChars p = []
  · simp [mergeChars, hP]
  · have hN : normalizeTextChars n ≠ [] := by
      intro hN
      rw [hN] at h hne
      exact hP (toLowerChars_nil_iff.mp (includesL_nil h))
    simp only [mergeChars]
    rw [if_neg hP, if_neg hN,
      if_neg (fun e : toLowerChars (normalizeTextChars p) =
        toLowerChars (normalizeTextChars n) => hne e.symm)]
    by_cases hs : startsWithL (toLowerChars (normalizeTextChars n))
        (toLowerChars (normalizeTextChars p)) = true
    · rw [if_pos hs]
    · rw [if_neg hs, if_pos h]

/-- Containment branch of the merge, other direction: when the normalized,
lower-cased previous text strictly contains the next one, the merge returns
the normalized previous text. -/
theorem mergeChars_of_prev_includes (p n : List Char) (b : Bool)
    (h : includesL (toLowerChars (normalizeTextChars p))
        (toLowerChars (normalizeTextChars n)) = true)
    (hne : toLowerChars (normalizeTextChars n) ≠
        toLowerChars (normalizeTextChars p)) :
    mergeChars p n b = normalizeTextChars p := by
  have hlen : (toLowerChars (normalizeTextChars n)).length ≤
      (toLowerChars (normalizeTextChars p)).length := includesL_length h
  have hP : normalizeTextChars p ≠ [] := by
    intro hP
    rw [hP] at hlen
    have hN0 : toLowerChars (normalizeTextChars n) = [] :=
      List.length_eq_zero.mp
        (Nat.le_antisymm (by simpa [toLowerChars] using hlen) (Nat.zero_le _))
    apply hne
    rw [hN0, hP]
    simp [toLowerChars]
  by_cases hN : normalizeTextChars n = []
  · simp only [mergeChars]
    rw [if_neg hP, if_pos hN]
  · simp only [mergeChars]
    rw [if_neg hP, if_neg hN,
      if_neg (fun e : toLowerChars (normalizeTextChars p) =
        toLowerChars (normalizeTextChars n) => hne e.symm)]
    rw [if_neg (fun hs : startsWithL (toLowerChars (normalizeTextChars n))
        (toLowerChars (normalizeTextChars p)) = true =>
      hne (startsWithL_eq_of_length hs hlen))]
    rw [if_neg (fun hi : includesL (toLowerChars (normalizeTextChars n))
        (toLowerChars (normalizeTextChars p)) = true =>
      hne (includesL_eq_of_length hi hlen))]
    by_cases hs : startsWithL (toLowerChars (normalizeTextChars p))
        (toLowerChars (normalizeTextChars n)) = true
    · rw [if_pos hs]
    · rw [if_neg hs, if_pos h]

theorem tokenize_nil : tokenize [] = [] := rfl

/-- Restart branch of the merge: when no earlier rule fires (neither text
contains the other, no word overlap) and the restart heuristic judges the
next fragment a restart, the merge returns the normalized next text. -/
theorem mergeChars_of_restart (p n : List Char) (b : Bool)
    (h1 : includesL (toLowerChars (normalizeTextChars n))
        (toLowerChars (normalizeTextChars p)) = false)
    (h2 : includesL (toLowerChars (normalizeTextChars p))
        (toLowerChars (normalizeTextChars n)) = false)
    (h3 : findWordOverlap (splitSp (normalizeTextChars p))
        (splitSp (normalizeTextChars n)) = 0)
    (h4 : looksLikeRestartChars (normalizeTextChars p)
        (normalizeTextChars n) = true) :
    mergeChars p n b = normalizeTextChars n := by
  have h1' : ¬ includesL (toLowerChars (normalizeTextChars n))
      (toLowerChars (normalizeTextChars p)) = true := by simp [h1]
  have h2' : ¬ includesL (toLowerChars (normalizeTextChars p))
      (toLowerChars (normalizeTextChars n)) = true := by simp [h2]
  have hP : normalizeTextChars p ≠ [] := by
    intro hP
    rw [hP] at h4
    simp [looksLikeRestartChars, tokenize_nil] at h4
  have hN : normalizeTextChars n ≠ [] := by
    intro hN
    rw [hN] at h4
    simp [looksLikeRestartChars, tokenize_nil] at h4
  simp only [mergeChars]
  rw [if_neg hP, if_neg hN,
    if_neg (fun e : toLowerChars (normalizeTextChars p) =
      toLowerChars (normalizeTextChars n) => h1' (e ▸ includesL_refl _)),
    if_neg (fun hs => h1' (startsWithL_imp_includesL hs)), if_neg h1',
    if_neg (fun hs => h2' (startsWithL_imp_includesL hs)), if_neg h2',
    h3, if_neg (by simp : ¬ (0 : Nat) < 0), if_pos h4]

/-- Unit laws of the merge for whitespace-normalized inputs. -/
theorem mergeChars_unit (x : List Char) (b : Bool)
    (h : normalizeTextChars x = x) :
    mergeChars [] x b = x ∧ mergeChars x [] b = x ∧ mergeChars x x b = x := by
  have h0 : normalizeTextChars ([] : List Char) = [] := rfl
  refine ⟨?_, ?_, ?_⟩
  · simp [mergeChars, h0, h]
  · by_cases hx : x = []
    · simp [mergeChars, hx, h0]
    · simp [mergeChars, h0, h, hx]
  · by_cases hx : x = []
    · simp [mergeChars, hx, h0]
    · simp [mergeChars, h, hx]

/-! ## Claims about the merge engine -/

/-- C1 (amended): when the merge reaches the restart check — the fragments
are nonempty, neither whitespace-normalized lower-cased text contains the
other, and no word-level suffix/prefix overlap was found — and
`looksLikeRestart` judges the next fragment a provider-side transcription
restart, `mergeIncrementalTranscriptText` returns the normalized next text
outright, for either value of `isFinal`.  (As originally stated — returning
next whenever the token conditions of the restart judgment hold — the claim
fails; see `Marlowe.merge_restart_not_unconditional`.) -/
theorem merge_restart_returns_next (p n : String) (b : Bool)
    (h1 : includesL (toLowerChars (normalizeTranscriptText n).data)
        (toLowerChars (normalizeTranscriptText p).data) = false)
    (h2 : includesL (toLowerChars (normalizeTranscriptText p).data)
        (toLowerChars (normalizeTranscriptText n).data) = false)
    (h3 : findWordOverlap (splitSp (normalizeTranscriptText p).data)
        (splitSp (normalizeTranscriptText n).data) = 0)
    (h4 : looksLikeRestart (normalizeTranscriptText p)
        (normalizeTranscriptText n) = true) :
    mergeIncrementalTranscriptText p n b = normalizeTranscriptText n :=
  congrArg String.mk (mergeChars_of_restart p.data n.data b h1 h2 h3 h4)

/-- C1 witness: the spec's own example.  The first two tokens of
"I need your help please" match those of "I need your account number", no
earlier merge rule fires, so the merge returns the second string outright
(with `isFinal = false`). -/
theorem merge_restart_returns_next_witness :
    mergeIncrementalTranscriptText "I need your account number"
      "I need your help please" false = "I need your help please" :=
  (merge_restart_returns_next "I need your account number"
    "I need your help please" false (by decide) (by decide) (by decide)
    (by decide)).trans (by decide)

/-- C1 counterexample to the claim as stated: for previous "a b c" and next
"a b" the first two tokens match, so the next fragment is judged a restart
(`looksLikeRestart` is true and the claim's first restart condition holds),
yet the merge returns "a b c" — the previous text, not next — because the
earlier previous-starts-with-next rule fires first. -/
theorem merge_restart_not_unconditional :
    looksLikeRestart "a b c" "a b" = true ∧
    countPrefixTokenMatches (tokenize ("a b c").data)
      (tokenize ("a b").data) = 2 ∧
    mergeIncrementalTranscriptText "a b c" "a b" false = "a b c" ∧
    mergeIncrementalTranscriptText "a b c" "a b" false ≠ "a b" := by
  refine ⟨by decide, by decide, by decide, by decide⟩

/-- C2: if the whitespace-normalized next text contains the
whitespace-normalized previous text as a case-insensitive substring and the
two are not case-insensitively equal, the merge returns the (normalized)
next text; symmetrically, if previous contains next, the merge returns the
(normalized) previous text. -/
theorem merge_containment_resolution (p n : String) (b : Bool) :
    (includesL (toLowerChars (normalizeTranscriptText n).data)
        (toLowerChars (normalizeTranscriptText p).data) = true →
      toLowerChars (normalizeTranscriptText n).data ≠
        toLowerChars (normalizeTranscriptText p).data →
      mergeIncrementalTranscriptText p n b = normalizeTranscriptText n) ∧
    (includesL (toLowerChars (normalizeTranscriptText p).data)
        (toLowerChars (normalizeTranscriptText n).data) = true →
      toLowerChars (normalizeTranscriptText n).data ≠
        toLowerChars (normalizeTranscriptText p).data →
      mergeIncrementalTranscriptText p n b = normalizeTranscriptText p) :=
  ⟨fun h hne => congrArg String.mk (mergeChars_of_next_includes p.data n.data b h hne),
   fun h hne => congrArg String.mk (mergeChars_of_prev_includes p.data n.data b h hne)⟩

/-- C2 witness: "the brown fox jumps" contains "brown fox" (and vice versa
for the symmetric direction), so the merge keeps the longer text. -/
theorem merge_containment_resolution_witness :
    mergeIncrementalTranscriptText "brown fox" "the brown fox jumps" false =
      "the brown fox jumps" ∧
    mergeIncrementalTranscriptText "the brown fox jumps" "brown fox" false =
      "the brown fox jumps" :=
  ⟨((merge_containment_resolution "brown fox" "the brown fox jumps" false).1
      (by decide) (by decide)).trans (by decide),
   ((merge_containment_resolution "the brown fox jumps" "brown fox" false).2
      (by decide) (by decide)).trans (by decide)⟩

/-- C8 (amended): the unit laws of the merge hold for every
whitespace-normalized string `x` (and hence for every `x` up to
normalization): `merge("", x) = x`, `merge(x, "") = x` and
`merge(x, x) = x` for any `isFinal` flag.  For raw strings the merge
returns the normalized text instead; see
`Marlowe.merge_unit_laws_need_normalization`. -/
theorem merge_unit_laws (x : String) (b : Bool)
    (h : normalizeTranscriptText x = x) :
    mergeIncrementalTranscriptText "" x b = x ∧
    mergeIncrementalTranscriptText x "" b = x ∧
    mergeIncrementalTranscriptText x x b = x := by
  obtain ⟨xd⟩ := x
  have h' : normalizeTextChars xd = xd := by
    have := congrArg String.data h
    simpa [normalizeTranscriptText] using this
  obtain ⟨e1, e2, e3⟩ := mergeChars_unit xd b h'
  exact ⟨congrArg String.mk e1, congrArg String.mk e2, congrArg String.mk e3⟩

/-- C8 witness: the unit laws at the normalized string "hello there". -/
theorem merge_unit_laws_witness :
    mergeIncrementalTranscriptText "" "hello there" false = "hello there" ∧
    mergeIncrementalTranscriptText "hello there" "" false = "hello there" ∧
    mergeIncrementalTranscriptText "hello there" "hello there" false =
      "hello there" :=
  merge_unit_laws "hello there" false (by decide)

/-- C8 counterexample to the claim as stated for arbitrary strings: the
merge first normalizes whitespace, so `merge("", " a")` is "a", not " a". -/
theorem merge_unit_laws_need_normalization :
    mergeIncrementalTranscriptText "" " a" false ≠ " a" := by decide

/-! ### Word decomposition of normalized text

`wordsWs` splits a character list into its maximal whitespace-free words;
it characterizes `normalizeTextChars` as "words joined by single spaces"
and underlies the proof that merge output is always normalized. -/

def wordsWs : List Char → List (List Char)
  | [] => []
  | c :: cs =>
    if isWs c then wordsWs cs
    else (c :: cs.takeWhile fun d => !isWs d) ::
      wordsWs (cs.dropWhile fun d => !isWs d)
termination_by xs => xs.length
decreasing_by
  · simp
  · exact Nat.lt_succ_of_le (List.dropWhile_sublist _).length_le

/-- A list of words is well formed when each word is nonempty and free of
whitespace. -/
def GoodWords (ws : List (List Char)) : Prop :=
  ∀ w ∈ ws, w ≠ [] ∧ ∀ a ∈ w, isWs a = false

theorem dropWhile_head_false {α} {p : α → Bool} :
    ∀ {l : List α} {d : α} {r : List α}, l.dropWhile p = d :: r → p d = false
  | [], _, _, h => by simp [List.dropWhile] at h
  | a :: l, d, r, h => by
    rw [List.dropWhile_cons] at h
    cases ha : p a with
    | true => rw [ha, if_pos rfl] at h; exact dropWhile_head_false h
    | false =>
      rw [ha] at h
      simp only [Bool.false_eq_true, if_false, List.cons.injEq] at h
      rw [← h.1]; exact ha

theorem dropWhile_all_neg {α} {p : α → Bool} :
    ∀ {l : List α}, (∀ a ∈ l, p a = false) → l.dropWhile p = l
  | [], _ => rfl
  | a :: l, h => by
    rw [List.dropWhile_cons, h a (List.mem_cons_self a l)]
    simp

theorem dropWhile_all_pos {α} {p : α → Bool} :
    ∀ {l : List α}, (∀ a ∈ l, p a = true) → l.dropWhile p = []
  | [], _ => rfl
  | a :: l, h => by
    rw [List.dropWhile_cons, h a (List.mem_cons_self a l)]
    simpa using dropWhile_all_pos fun x hx => h x (List.mem_cons_of_mem a hx)

theorem takeWhile_all_pos {α} {p : α → Bool} :
    ∀ {l : List α}, (∀ a ∈ l, p a = true) → l.takeWhile p = l
  | [], _ => rfl
  | a :: l, h => by
    rw [List.takeWhile_cons, h a (List.mem_cons_self a l)]
    simpa using takeWhile_all_pos fun x hx => h x (List.mem_cons_of_mem a hx)

theorem takeWhile_append_pos {α} {p : α → Bool} :
    ∀ {u : List α} (v : List α), (∀ a ∈ u, p a = true) →
      (u ++ v).takeWhile p = u ++ v.takeWhile p
  | [], _, _ => rfl
  | a :: u, v, h => by
    rw [List.cons_append, List.takeWhile_cons, h a (List.mem_cons_self a u)]
    simpa using takeWhile_append_pos v fun x hx =>
      h x (List.mem_cons_of_mem a hx)

theorem dropWhile_append_pos {α} {p : α → Bool} :
    ∀ {u : List α} (v : List α), (∀ a ∈ u, p a = true) →
      (u ++ v).dropWhile p = v.dropWhile p
  | [], _, _ => rfl
  | a :: u, v, h => by
    rw [List.cons_append, List.dropWhile_cons, h a (List.mem_cons_self a u)]
    simpa using dropWhile_append_pos v fun x hx =>
      h x (List.mem_cons_of_mem a hx)

theorem dropWhile_append_ne {α} {p : α → Bool} :
    ∀ {u : List α} (v : List α), u.dropWhile p ≠ [] →
      (u ++ v).dropWhile p = u.dropWhile p ++ v
  | [], _, h => absurd rfl h
  | a :: u, v, h => by
    cases ha : p a with
    | true =>
      rw [List.dropWhile_cons, ha, if_pos rfl] at h
      rw [List.cons_append, List.dropWhile_cons, ha, if_pos rfl,
        List.dropWhile_cons, ha, if_pos rfl]
      exact dropWhile_append_ne v h
    | false =>
      rw [List.cons_append, List.dropWhile_cons, ha, List.dropWhile_cons, ha]
      simp

theorem dropWhile_ne_of_exists {α} {p : α → Bool} :
    ∀ {u : List α}, (∃ a ∈ u, p a = false) → u.dropWhile p ≠ []
  | [], h => by simp at h
  | a :: u, h => by
    rw [List.dropWhile_cons]
    cases ha : p a with
    | true =>
      simp only [if_pos rfl]
      rcases h with ⟨x, hx, hpx⟩
      rcases List.mem_cons.mp hx with rfl | hx
      · rw [ha] at hpx; cases hpx
      · exact dropWhile_ne_of_exists ⟨x, hx, hpx⟩
    | false => simp

theorem wordsWs_dropWhile :
    ∀ xs : List Char, wordsWs (xs.dropWhile isWs) = wordsWs xs
  | [] => rfl
  | c :: cs => by
    rw [List.dropWhile_cons]
    cases hc : isWs c with
    | true =>
      rw [if_pos rfl, wordsWs_dropWhile cs, wordsWs]
      simp [hc]
    | false => simp

theorem trim_cons_space (y : List Char) :
    trimChars (' ' :: y) = trimChars y := by
  unfold trimChars
  rw [List.dropWhile_cons, show isWs ' ' = true from rfl, if_pos rfl]

theorem trim_nonws {w : List Char} (hw : ∀ a ∈ w, isWs a = false) :
    trimChars w = w := by
  unfold trimChars
  rw [dropWhile_all_neg hw,
    dropWhile_all_neg fun a ha => hw a (List.mem_reverse.mp ha),
    List.reverse_reverse]

theorem trim_word_space {w : List Char} (hw : ∀ a ∈ w, isWs a = false)
    (hwne : w ≠ []) : trimChars (w ++ [' ']) = w := by
  obtain ⟨c, w', rfl⟩ : ∃ c w', w = c :: w' := by
    cases w with
    | nil => exact absurd rfl hwne
    | cons c w' => exact ⟨c, w', rfl⟩
  unfold trimChars
  rw [List.cons_append, List.dropWhile_cons, hw c (List.mem_cons_self c w')]
  simp only [Bool.false_eq_true, if_false]
  rw [← List.cons_append, List.reverse_append, List.reverse_singleton,
    List.singleton_append, List.dropWhile_cons,
    show isWs ' ' = true from rfl, if_pos rfl,
    dropWhile_all_neg fun a ha => hw a (List.mem_reverse.mp ha),
    List.reverse_reverse]

theorem trim_append_sep {w y : List Char} (hw : ∀ a ∈ w, isWs a = false)
    (hwne : w ≠ []) (hy0 : y.dropWhile isWs = y) (hyne : y ≠ []) :
    trimChars (w ++ ' ' :: y) = w ++ ' ' :: trimChars y := by
  obtain ⟨c, w', rfl⟩ : ∃ c w', w = c :: w' := by
    cases w with
    | nil => exact absurd rfl hwne
    | cons c w' => exact ⟨c, w', rfl⟩
  obtain ⟨e, y₀, rfl⟩ : ∃ e y₀, y = e :: y₀ := by
    cases y with
    | nil => exact absurd rfl hyne
    | cons e y₀ => exact ⟨e, y₀, rfl⟩
  have he : isWs e = false := by
    cases hhe : isWs e with
    | false => rfl
    | true =>
      rw [List.dropWhile_cons, hhe, if_pos rfl] at hy0
      have hlen := congrArg List.length hy0
      have hle := (List.dropWhile_sublist (l := y₀) isWs).length_le
      rw [hlen] at hle
      exact absurd hle (by simp)
  have hc : isWs c = false := hw c (List.mem_cons_self c w')
  have hyrev : ((e :: y₀).reverse.dropWhile isWs) ≠ [] :=
    dropWhile_ne_of_exists
      ⟨e, List.mem_reverse.mpr (List.mem_cons_self e y₀), he⟩
  unfold trimChars
  rw [hy0, List.cons_append, List.dropWhile_cons, hc]
  simp only [Bool.false_eq_true, if_false]
  rw [← List.cons_append, List.reverse_append,
    show (' ' :: e :: y₀).reverse = (e :: y₀).reverse ++ [' '] from
      List.reverse_cons ' ' (e :: y₀),
    List.append_assoc, List.singleton_append,
    dropWhile_append_ne _ hyrev, List.reverse_append,
    show (' ' :: (c :: w').reverse).reverse
        = (c :: w').reverse.reverse ++ [' '] from
      List.reverse_cons ' ' (c :: w').reverse,
    List.reverse_reverse, List.append_assoc, List.singleton_append]

theorem collapseWsAux_true :
    ∀ cs : List Char,
      collapseWsAux cs true = collapseWsAux (cs.dropWhile isWs) false
  | [] => rfl
  | c :: cs => by
    cases hc : isWs c with
    | true =>
      rw [List.dropWhile_cons, hc, if_pos rfl]
      simp only [collapseWsAux, hc, if_pos rfl, if_true]
      exact collapseWsAux_true cs
    | false =>
      rw [List.dropWhile_cons, hc]
      simp [collapseWsAux, hc]

theorem collapse_nonws_append :
    ∀ {u : List Char} (v : List Char), (∀ a ∈ u, isWs a = false) →
      collapseWsAux (u ++ v) false = u ++ collapseWsAux v false
  | [], _, _ => rfl
  | a :: u, v, h => by
    rw [List.cons_append]
    simp only [collapseWsAux, h a (List.mem_cons_self a u),
      Bool.false_eq_true, if_false]
    rw [collapse_nonws_append v fun x hx => h x (List.mem_cons_of_mem a hx),
      List.cons_append]

theorem normChars_cons_ws {c : Char} (cs : List Char) (hc : isWs c = true) :
    normalizeTextChars (c :: cs) = normalizeTextChars (cs.dropWhile isWs) := by
  show trimChars (collapseWsAux (c :: cs) false)
      = trimChars (collapseWsAux (cs.dropWhile isWs) false)
  have hstep : collapseWsAux (c :: cs) false = ' ' :: collapseWsAux cs true := by
    simp [collapseWsAux, hc]
  rw [hstep, trim_cons_space, collapseWsAux_true]

theorem joinSp_cons_ne (w : List Char) {ws : List (List Char)}
    (h : ws ≠ []) : joinSp (w :: ws) = w ++ ' ' :: joinSp ws := by
  cases ws with
  | nil => exact absurd rfl h
  | cons w₂ ws' => rfl

theorem normChars_nil : normalizeTextChars [] = joinSp (wordsWs []) := by
  show trimChars (collapseWsAux [] false) = joinSp (wordsWs [])
  rw [wordsWs]
  rfl

theorem normChars_eq_joinWords_aux :
    ∀ (n : Nat) (xs : List Char), xs.length ≤ n →
      normalizeTextChars xs = joinSp (wordsWs xs) := by
  intro n
  induction n with
  | zero =>
    intro xs hxs
    rw [List.length_eq_zero.mp (Nat.le_zero.mp hxs)]
    exact normChars_nil
  | succ n ih =>
    intro xs hxs
    cases xs with
    | nil => exact normChars_nil
    | cons c cs =>
      have hcs : cs.length ≤ n := Nat.le_of_succ_le_succ (by simpa using hxs)
      cases hc : isWs c with
      | true =>
        rw [normChars_cons_ws cs hc,
          show wordsWs (c :: cs) = wordsWs cs by rw [wordsWs]; simp [hc],
          ← wordsWs_dropWhile cs]
        exact ih _ (Nat.le_trans (List.dropWhile_sublist _).length_le hcs)
      | false =>
        have htw_all : ∀ a ∈ cs.takeWhile (fun d => !isWs d),
            isWs a = false := fun a ha => by
          simpa using List.mem_takeWhile_imp ha
        have hw_all : ∀ a ∈ c :: cs.takeWhile (fun d => !isWs d),
            isWs a = false := fun a ha => by
          rcases List.mem_cons.mp ha with rfl | ha
          · exact hc
          · exact htw_all a ha
        have hcollapse : collapseWsRuns (c :: cs)
            = (c :: cs.takeWhile (fun d => !isWs d))
              ++ collapseWsAux (cs.dropWhile (fun d => !isWs d)) false := by
          show collapseWsAux (c :: cs) false = _
          have hstep : collapseWsAux (c :: cs) false
              = c :: collapseWsAux cs false := by
            simp [collapseWsAux, hc]
          rw [hstep, show cs = cs.takeWhile (fun d => !isWs d)
                ++ cs.dropWhile (fun d => !isWs d) from
              (List.takeWhile_append_dropWhile (p := fun d => !isWs d)
                (l := cs)).symm,
            collapse_nonws_append _ htw_all]
          simp
        have hwords : wordsWs (c :: cs)
            = (c :: cs.takeWhile (fun d => !isWs d))
              :: wordsWs (cs.dropWhile (fun d => !isWs d)) := by
          rw [wordsWs]
          simp [hc]
        cases ht : cs.dropWhile (fun d => !isWs d) with
        | nil =>
          rw [show normalizeTextChars (c :: cs)
              = trimChars (collapseWsRuns (c :: cs)) from rfl,
            hcollapse, ht, hwords, ht]
          show trimChars ((c :: cs.takeWhile fun d => !isWs d) ++ []) = _
          rw [List.append_nil, trim_nonws hw_all, wordsWs]
          rfl
        | cons d r =>
          have hr : r.length < cs.length := by
            have := (List.dropWhile_sublist (fun d => !isWs d)
              (l := cs)).length_le
            rw [ht] at this
            exact Nat.lt_of_lt_of_le (by simp) this
          have hd : isWs d = true := by
            have := dropWhile_head_false ht
            simpa using this
          have hcollapse2 : collapseWsAux (d :: r) false
              = ' ' :: collapseWsAux (r.dropWhile isWs) false := by
            have hstep : collapseWsAux (d :: r) false
                = ' ' :: collapseWsAux r true := by
              simp [collapseWsAux, hd]
            rw [hstep, collapseWsAux_true]
          have hwt : wordsWs (d :: r) = wordsWs (r.dropWhile isWs) := by
            rw [wordsWs]
            simp [hd, wordsWs_dropWhile]
          cases ht2 : r.dropWhile isWs with
          | nil =>
            rw [show normalizeTextChars (c :: cs)
                = trimChars (collapseWsRuns (c :: cs)) from rfl,
              hcollapse, ht, hcollapse2, ht2, hwords, ht, hwt, ht2]
            show trimChars
                ((c :: cs.takeWhile fun d => !isWs d) ++ [' ']) = _
            rw [trim_word_space hw_all (by simp), wordsWs]
            rfl
          | cons e t2' =>
            have he : isWs e = false := dropWhile_head_false ht2
            have hcfix : (collapseWsAux (e :: t2') false).dropWhile isWs
                = collapseWsAux (e :: t2') false := by
              have hstep : collapseWsAux (e :: t2') false
                  = e :: collapseWsAux t2' false := by
                simp [collapseWsAux, he]
              rw [hstep, List.dropWhile_cons, he]
              simp
            have hcne : collapseWsAux (e :: t2') false ≠ [] := by
              simp [collapseWsAux, he]
            have hwne : wordsWs (e :: t2') ≠ [] := by
              rw [wordsWs]
              simp [he]
            have hlen2 : (e :: t2').length ≤ n := by
              rw [← ht2]
              exact Nat.le_trans (List.dropWhile_sublist _).length_le
                (Nat.le_trans (Nat.le_of_lt hr) hcs)
            have hrec : normalizeTextChars (e :: t2')
                = joinSp (wordsWs (e :: t2')) := ih _ hlen2
            rw [show normalizeTextChars (c :: cs)
                = trimChars (collapseWsRuns (c :: cs)) from rfl,
              hcollapse, ht, hcollapse2, ht2, hwords, ht, hwt, ht2]
            rw [trim_append_sep hw_all (by simp) hcfix hcne,
              joinSp_cons_ne _ hwne, ← hrec]
            rfl

/-- `normalizeTranscriptText` is exactly "split into whitespace-free words,
join with single spaces". -/
theorem normChars_eq_joinWords (xs : List Char) :
    normalizeTextChars xs = joinSp (wordsWs xs) :=
  normChars_eq_joinWords_aux xs.length xs (Nat.le_refl _)

theorem goodWords_wordsWs_aux :
    ∀ (n : Nat) (xs : List Char), xs.length ≤ n → GoodWords (wordsWs xs) := by
  intro n
  induction n with
  | zero =>
    intro xs hxs
    rw [List.length_eq_zero.mp (Nat.le_zero.mp hxs), wordsWs]
    intro w hw
    simp at hw
  | succ n ih =>
    intro xs hxs
    cases xs with
    | nil =>
      rw [wordsWs]
      intro w hw
      simp at hw
    | cons c cs =>
      have hcs : cs.length ≤ n := Nat.le_of_succ_le_succ (by simpa using hxs)
      cases hc : isWs c with
      | true =>
        rw [show wordsWs (c :: cs) = wordsWs cs by rw [wordsWs]; simp [hc]]
        exact ih cs hcs
      | false =>
        rw [show wordsWs (c :: cs)
            = (c :: cs.takeWhile (fun d => !isWs d))
              :: wordsWs (cs.dropWhile (fun d => !isWs d)) by
          rw [wordsWs]; simp [hc]]
        intro w hw
        rcases List.mem_cons.mp hw with rfl | hw
        · refine ⟨by simp, fun a ha => ?_⟩
          rcases List.mem_cons.mp ha with rfl | ha
          · exact hc
          · simpa using List.mem_takeWhile_imp ha
        · exact ih _ (Nat.le_trans (List.dropWhile_sublist _).length_le hcs)
            w hw

theorem goodWords_wordsWs (xs : List Char) : GoodWords (wordsWs xs) :=
  goodWords_wordsWs_aux xs.length xs (Nat.le_refl _)

theorem wordsWs_single {w : List Char} (hw : ∀ a ∈ w, isWs a = false)
    (hne : w ≠ []) : wordsWs w = [w] := by
  obtain ⟨c, w', rfl⟩ : ∃ c w', w = c :: w' := by
    cases w with
    | nil => exact absurd rfl hne
    | cons c w' => exact ⟨c, w', rfl⟩
  have hw' : ∀ a ∈ w', (fun d => !isWs d) a = true := fun a ha => by
    simp [hw a (List.mem_cons_of_mem c ha)]
  rw [wordsWs]
  simp only [hw c (List.mem_cons_self c w'), Bool.false_eq_true, if_false]
  rw [takeWhile_all_pos hw', dropWhile_all_pos hw', wordsWs]

theorem wordsWs_word_append {w : List Char} (rest : List Char)
    (hw : ∀ a ∈ w, isWs a = false) (hne : w ≠ []) :
    wordsWs (w ++ ' ' :: rest) = w :: wordsWs rest := by
  obtain ⟨c, w', rfl⟩ : ∃ c w', w = c :: w' := by
    cases w with
    | nil => exact absurd rfl hne
    | cons c w' => exact ⟨c, w', rfl⟩
  have hw' : ∀ a ∈ w', (fun d => !isWs d) a = true := fun a ha => by
    simp [hw a (List.mem_cons_of_mem c ha)]
  rw [List.cons_append, wordsWs]
  simp only [hw c (List.mem_cons_self c w'), Bool.false_eq_true, if_false]
  rw [takeWhile_append_pos _ hw', dropWhile_append_pos _ hw',
    List.takeWhile_cons, List.dropWhile_cons]
  simp only [show (fun d => !isWs d) ' ' = false from rfl,
    Bool.false_eq_true, if_false, List.append_nil]
  rw [show wordsWs (' ' :: rest) = wordsWs rest by rw [wordsWs]; simp [isWs]]

theorem wordsWs_joinSp :
    ∀ {ws : List (List Char)}, GoodWords ws → wordsWs (joinSp ws) = ws
  | [], _ => by rw [show joinSp [] = [] from rfl, wordsWs]
  | [w], hg => by
    rw [show joinSp [w] = w from rfl,
      wordsWs_single (hg w (List.mem_cons_self w [])).2
        (hg w (List.mem_cons_self w [])).1]
  | w :: w₂ :: ws', hg => by
    rw [show joinSp (w :: w₂ :: ws') = w ++ ' ' :: joinSp (w₂ :: ws')
        from rfl,
      wordsWs_word_append _ (hg w (List.mem_cons_self w _)).2
        (hg w (List.mem_cons_self w _)).1,
      wordsWs_joinSp fun x hx => hg x (List.mem_cons_of_mem w hx)]

theorem good_no_space {w : List Char} (hw : ∀ a ∈ w, isWs a = false) :
    ∀ a ∈ w, a ≠ ' ' := by
  intro a ha he
  have := hw a ha
  rw [he] at this
  simp [isWs] at this

theorem splitSpAux_no_space :
    ∀ {w : List Char} (z acc : List Char), (∀ a ∈ w, a ≠ ' ') →
      splitSpAux (w ++ z) acc = splitSpAux z (w.reverse ++ acc)
  | [], z, acc, _ => by simp
  | a :: w', z, acc, h => by
    rw [List.cons_append, splitSpAux.eq_def]
    simp only [h a (List.mem_cons_self a w'), if_false]
    rw [splitSpAux_no_space z (a :: acc)
      fun x hx => h x (List.mem_cons_of_mem a hx)]
    simp [List.reverse_cons, List.append_assoc]

theorem splitSp_joinSp :
    ∀ {ws : List (List Char)}, GoodWords ws → ws ≠ [] →
      splitSp (joinSp ws) = ws
  | [], _, hne => absurd rfl hne
  | [w], hg, _ => by
    show splitSpAux (joinSp [w]) [] = [w]
    rw [show joinSp [w] = w from rfl, ← List.append_nil w,
      splitSpAux_no_space [] []
        (good_no_space (hg w (List.mem_cons_self w [])).2)]
    simp [splitSpAux]
  | w :: w₂ :: ws', hg, _ => by
    show splitSpAux (joinSp (w :: w₂ :: ws')) [] = _
    rw [show joinSp (w :: w₂ :: ws') = w ++ ' ' :: joinSp (w₂ :: ws')
        from rfl,
      splitSpAux_no_space _ _
        (good_no_space (hg w (List.mem_cons_self w _)).2)]
    rw [splitSpAux.eq_def]
    simp only [if_pos rfl, List.append_nil, List.reverse_reverse]
    rw [show splitSpAux (joinSp (w₂ :: ws')) [] = splitSp (joinSp (w₂ :: ws'))
        from rfl,
      splitSp_joinSp (fun x hx => hg x (List.mem_cons_of_mem w hx))
        (by simp)]
    simp

theorem mem_collapseDuplicateWordsAux :
    ∀ {ws : List (List Char)} {t w : List Char},
      w ∈ collapseDuplicateWordsAux ws t → w ∈ ws
  | [], _, _, h => by simp [collapseDuplicateWordsAux] at h
  | w₀ :: rest, t, w, h => by
    rw [collapseDuplicateWordsAux] at h
    split at h
    · exact List.mem_cons_of_mem w₀ (mem_collapseDuplicateWordsAux h)
    · rcases List.mem_cons.mp h with rfl | h
      · exact List.mem_cons_self w rest
      · exact List.mem_cons_of_mem w₀ (mem_collapseDuplicateWordsAux h)

theorem good_collapse {ws : List (List Char)} (hg : GoodWords ws) :
    GoodWords (collapseDuplicateWords ws) :=
  fun w hw => hg w (mem_collapseDuplicateWordsAux hw)

theorem good_append {u v : List (List Char)} (hu : GoodWords u)
    (hv : GoodWords v) : GoodWords (u ++ v) := fun w hw => by
  rcases List.mem_append.mp hw with hw | hw
  · exact hu w hw
  · exact hv w hw

theorem good_drop {v : List (List Char)} (k : Nat) (hv : GoodWords v) :
    GoodWords (v.drop k) :=
  fun w hw => hv w (List.drop_subset k v hw)

theorem normChars_joinSp_good {ws : List (List Char)} (hg : GoodWords ws) :
    normalizeTextChars (joinSp ws) = joinSp ws := by
  rw [normChars_eq_joinWords (joinSp ws), wordsWs_joinSp hg]

theorem normChars_idem (x : List Char) :
    normalizeTextChars (normalizeTextChars x) = normalizeTextChars x := by
  rw [normChars_eq_joinWords x]
  exact normChars_joinSp_good (goodWords_wordsWs x)

theorem splitSp_normChars {x : List Char} (hx : normalizeTextChars x ≠ []) :
    splitSp (normalizeTextChars x) = wordsWs x := by
  rw [normChars_eq_joinWords x] at hx ⊢
  exact splitSp_joinSp (goodWords_wordsWs x) fun e => hx (by rw [e]; rfl)

/-- Character-level statement of C9: merge output is a fixed point of
whitespace normalization. -/
theorem mergeChars_normalized (p n : List Char) (b : Bool) :
    normalizeTextChars (mergeChars p n b) = mergeChars p n b := by
  by_cases hP : normalizeTextChars p = []
  · rw [show mergeChars p n b = normalizeTextChars n by
      simp [mergeChars, hP]]
    exact normChars_idem n
  by_cases hN : normalizeTextChars n = []
  · rw [show mergeChars p n b = normalizeTextChars p by
      simp [mergeChars, hP, hN]]
    exact normChars_idem p
  simp only [mergeChars]
  rw [if_neg hP, if_neg hN]
  split
  · exact normChars_idem p
  split
  · exact normChars_idem n
  split
  · exact normChars_idem n
  split
  · exact normChars_idem p
  split
  · exact normChars_idem p
  split
  · apply normChars_joinSp_good
    apply good_collapse
    apply good_append
    · rw [splitSp_normChars hP]
      exact goodWords_wordsWs p
    · exact good_drop _ (by
        rw [splitSp_normChars hN]
        exact goodWords_wordsWs n)
  split
  · exact normChars_idem n
  split
  · exact normChars_idem n
  · apply normChars_joinSp_good
    apply good_collapse
    apply good_append
    · rw [splitSp_normChars hP]
      exact goodWords_wordsWs p
    · rw [splitSp_normChars hN]
      exact goodWords_wordsWs n

/-- C9: the output of `mergeIncrementalTranscriptText` is always
whitespace-normalized — normalizing the merge result changes nothing, for
all inputs and either `isFinal` flag. -/
theorem merge_output_normalized (p n : String) (b : Bool) :
    normalizeTranscriptText (mergeIncrementalTranscriptText p n b) =
      mergeIncrementalTranscriptText p n b :=
  congrArg String.mk (mergeChars_normalized p.data n.data b)

/-! ## Byte-level cryptographic primitives

`node:crypto`'s `createHash('sha1')`, `createHmac('sha1', …)` and base64
digests, used by the webhook module for idempotency keys and signature
checks.  Bytes are `Nat` below 256; words are `Nat` below `2^32`. -/

/-- UTF-8 encoding of one character (`Buffer.from(string)`). -/
def utf8Bytes (c : Char) : List Nat :=
  let n := c.toNat
  if n < 128 then [n]
  else if n < 2048 then [192 + (n >>> 6), 128 + (n &&& 63)]
  else if n < 65536 then
    [224 + (n >>> 12), 128 + ((n >>> 6) &&& 63), 128 + (n &&& 63)]
  else
    [240 + (n >>> 18), 128 + ((n >>> 12) &&& 63), 128 + ((n >>> 6) &&& 63),
      128 + (n &&& 63)]

/-- UTF-8 bytes of a string. -/
def strBytes (s : String) : List Nat :=
  (s.data.map utf8Bytes).flatten

/-- 32-bit left rotation. -/
def rotl32 (s x : Nat) : Nat :=
  ((x <<< s) % 4294967296) + (x >>> (32 - s))

/-- Pack bytes into big-endian 32-bit words, four at a time. -/
def bytesToWords : List Nat → List Nat
  | b0 :: b1 :: b2 :: b3 :: rest =>
    (((b0 <<< 8 ||| b1) <<< 8 ||| b2) <<< 8 ||| b3) :: bytesToWords rest
  | _ => []

/-- SHA-1 padding: append `0x80`, zeros to 56 mod 64, and the 64-bit
big-endian bit length. -/
def sha1Pad (msg : List Nat) : List Nat :=
  let bitLen := msg.length * 8
  let padZeros := (119 - msg.length % 64) % 64
  msg ++ 128 :: List.replicate padZeros 0
    ++ ((List.range 8).map fun i => (bitLen >>> ((7 - i) * 8)) &&& 255)

/-- Message-schedule extension, accumulating words most-recent-first:
`w[i] = rotl1 (w[i-3] xor w[i-8] xor w[i-14] xor w[i-16])`. -/
def sha1ExtendRev : Nat → List Nat → List Nat
  | 0, acc => acc
  | k + 1, acc =>
    sha1ExtendRev k
      (rotl32 1 (acc.getD 2 0 ^^^ acc.getD 7 0 ^^^ acc.getD 13 0 ^^^
        acc.getD 15 0) :: acc)

/-- The 80 SHA-1 rounds over one chunk's schedule. -/
def sha1Rounds : Nat → List Nat → Nat × Nat × Nat × Nat × Nat →
    Nat × Nat × Nat × Nat × Nat
  | _, [], st => st
  | i, w :: ws, (a, b, c, d, e) =>
    let f :=
      if i < 20 then (b &&& c) ||| ((b ^^^ 4294967295) &&& d)
      else if i < 40 then b ^^^ c ^^^ d
      else if i < 60 then (b &&& c) ||| (b &&& d) ||| (c &&& d)
      else b ^^^ c ^^^ d
    let k :=
      if i < 20 then 1518500249
      else if i < 40 then 1859775393
      else if i < 60 then 2400959708
      else 3395469782
    let temp := (rotl32 5 a + f + e + k + w) % 4294967296
    sha1Rounds (i + 1) ws (temp, a, rotl32 30 b, c, d)

/-- Process the padded message 64-byte chunk by chunk (the fuel is an upper
bound on the byte count). -/
def sha1ProcessChunks : Nat → List Nat → Nat × Nat × Nat × Nat × Nat →
    Nat × Nat × Nat × Nat × Nat
  | 0, _, h => h
  | fuel + 1, bytes, (h0, h1, h2, h3, h4) =>
    match bytes with
    | [] => (h0, h1, h2, h3, h4)
    | _ :: _ =>
      let wsRev := sha1ExtendRev 64 (bytesToWords (bytes.take 64)).reverse
      let (a, b, c, d, e) := sha1Rounds 0 wsRev.reverse (h0, h1, h2, h3, h4)
      sha1ProcessChunks fuel (bytes.drop 64)
        ((h0 + a) % 4294967296, (h1 + b) % 4294967296,
          (h2 + c) % 4294967296, (h3 + d) % 4294967296,
          (h4 + e) % 4294967296)

/-- Big-endian bytes of one 32-bit word. -/
def wordBytes (h : Nat) : List Nat :=
  [(h >>> 24) &&& 255, (h >>> 16) &&& 255, (h >>> 8) &&& 255, h &&& 255]

/-- SHA-1 digest (20 bytes) of a byte sequence. -/
def sha1Bytes (msg : List Nat) : List Nat :=
  let padded := sha1Pad msg
  let st := sha1ProcessChunks padded.length padded
    (1732584193, 4023233417, 2562383102, 271733878, 3285377520)
  ([st.1, st.2.1, st.2.2.1, st.2.2.2.1, st.2.2.2.2].map wordBytes).flatten

/-- One lower-case hexadecimal digit. -/
def hexDigit (n : Nat) : Char :=
  if n < 10 then Char.ofNat (48 + n) else Char.ofNat (87 + n)

/-- Lower-case hex rendering of a byte sequence
(`createHash('sha1').digest('hex')`). -/
def bytesToHex (bs : List Nat) : String :=
  String.mk ((bs.map fun b => [hexDigit (b / 16), hexDigit (b % 16)]).flatten)

/-- `createHash('sha1').update(s).digest('hex')`. -/
def sha1Hex (s : String) : String :=
  bytesToHex (sha1Bytes (strBytes s))

/-- HMAC-SHA1 over bytes (`createHmac('sha1', key)`). -/
def hmacSha1 (key msg : List Nat) : List Nat :=
  let k0 := if 64 < key.length then sha1Bytes key else key
  let k := k0 ++ List.replicate (64 - k0.length) 0
  sha1Bytes ((k.map fun b => b ^^^ 92) ++
    sha1Bytes ((k.map fun b => b ^^^ 54) ++ msg))

/-- One character of the standard base64 alphabet. -/
def base64Char (n : Nat) : Char :=
  if n < 26 then Char.ofNat (65 + n)
  else if n < 52 then Char.ofNat (97 + (n - 26))
  else if n < 62 then Char.ofNat (48 + (n - 52))
  else if n = 62 then '+' else '/'

/-- Standard base64 encoding with padding (`digest('base64')`). -/
def base64Encode : List Nat → List Char
  | b0 :: b1 :: b2 :: rest =>
    let x := (b0 <<< 16) + (b1 <<< 8) + b2
    base64Char (x >>> 18) :: base64Char ((x >>> 12) &&& 63) ::
      base64Char ((x >>> 6) &&& 63) :: base64Char (x &&& 63) ::
      base64Encode rest
  | [b0, b1] =>
    let x := (b0 <<< 16) + (b1 <<< 8)
    [base64Char (x >>> 18), base64Char ((x >>> 12) &&& 63),
      base64Char ((x >>> 6) &&& 63), '=']
  | [b0] =>
    let x := b0 <<< 16
    [base64Char (x >>> 18), base64Char ((x >>> 12) &&& 63), '=', '=']
  | [] => []

/-! ## Twilio webhook normalizer and authenticator (lib/twilio-webhook)

Form bodies are modelled as association lists (`Record<string, string>`),
looked up at the last binding as `URLSearchParams` assignment would leave
them.  `JSON.parse` and `Date.parse` are pure functions of their input
string; the embedding abstracts them as explicit function parameters
(`jsonParse`, `dateParse`), with `none` standing for a parse failure, so
every theorem below holds for arbitrary implementations of the two. -/

/-- `TranscriptSpeaker` from lib/live-types. -/
inductive TranscriptSpeaker where
  | caller
  | other
  | unknown
deriving DecidableEq, Repr

/-- Template-literal rendering of a `TranscriptSpeaker`. -/
def speakerName : TranscriptSpeaker → String
  | .caller => "caller"
  | .other => "other"
  | .unknown => "unknown"

/-- `TwilioWebhookParams = Record<string, string>`. -/
def TwilioWebhookParams := List (String × String)

/-- Object indexing `params[key]` (the last assignment wins, as when
`parseTwilioFormBody` filled the record). -/
def paramGet (params : TwilioWebhookParams) (key : String) : Option String :=
  (params.reverse.find? fun kv => kv.1 == key).map fun kv => kv.2

/-- `String.prototype.trim` on `String`. -/
def trimStr (s : String) : String :=
  String.mk (trimChars s.data)

/-- `value.toLowerCase()` on `String`. -/
def toLowerStr (s : String) : String :=
  String.mk (toLowerChars s.data)

/-- `hay.includes(needle)` on `String`. -/
def strIncludes (hay needle : String) : Bool :=
  includesL hay.data needle.data

/-- `readString`: first key whose value trims to a nonempty string. -/
def readString (params : TwilioWebhookParams) : List String → Option String
  | [] => none
  | key :: keys =>
    match paramGet params key with
    | some value =>
      let trimmed := trimStr value
      if trimmed ≠ "" then some trimmed else readString params keys
    | none => readString params keys

/-- JSON values as `JSON.parse` can produce them (numbers restricted to
integers, the only kind the webhook fields use). -/
inductive JsonValue where
  | str (s : String)
  | num (n : Int)
  | boolVal (b : Bool)
  | nullVal
  | arr (xs : List JsonValue)
  | obj (fields : List (String × JsonValue))

/-- `asRecord`: a non-null, non-array object, else `null`. -/
def asRecord : JsonValue → Option (List (String × JsonValue))
  | .obj fields => some fields
  | _ => none

/-- Field lookup in a JSON record. -/
def recordGet (record : List (String × JsonValue)) (key : String) :
    Option JsonValue :=
  (record.find? fun kv => kv.1 == key).map fun kv => kv.2

/-- `readStringFromRecord`: first key holding a string that trims to a
nonempty value. -/
def readStringFromRecord (record : Option (List (String × JsonValue))) :
    List String → Option String
  | [] => none
  | key :: keys =>
    match record with
    | none => none
    | some r =>
      match recordGet r key with
      | some (.str value) =>
        let trimmed := trimStr value
        if trimmed ≠ "" then some trimmed
        else readStringFromRecord record keys
      | _ => readStringFromRecord record keys

/-- `readBoolean`: recognized truthy/falsy spellings, else `null`. -/
def readBoolean : Option String → Option Bool
  | none => none
  | some value =>
    if value = "" then none
    else
      let normalized := toLowerStr value
      if ["1", "true", "yes", "y"].contains normalized then some true
      else if ["0", "false", "no", "n"].contains normalized then some false
      else none

/-- `Number(value)` restricted to optional-sign decimal integer strings
(the only numeric forms the timestamp fields carry); other inputs are
treated as non-finite. -/
def jsNumber (s : String) : Option Int :=
  let digitsToNat : List Char → Option Nat := fun ds =>
    if ds ≠ [] ∧ ds.all fun c => '0' ≤ c && c ≤ '9' then
      some (ds.foldl (fun acc c => acc * 10 + (c.toNat - 48)) 0)
    else none
  match trimChars s.data with
  | [] => some 0
  | '-' :: ds => (digitsToNat ds).map fun n => -(n : Int)
  | '+' :: ds => (digitsToNat ds).map fun n => (n : Int)
  | ds => (digitsToNat ds).map fun n => (n : Int)

/-- `parseTimestamp`: milliseconds beyond `1e12`, seconds beyond `1e9`
scaled by 1000, then `Date.parse`, then the current time. -/
def parseTimestamp (dateParse : String → Option Int)
    (value : Option String) (now : Int) : Int :=
  match value with
  | none => now
  | some v =>
    let viaNumber : Option Int :=
      match jsNumber v with
      | some x =>
        if x > 1000000000000 then some x
        else if x > 1000000000 then some (x * 1000)
        else none
      | none => none
    match viaNumber with
    | some t => t
    | none =>
      match dateParse v with
      | some d => d
      | none => now

/-- `parseSpeaker`: substring heuristic over the lower-cased track hint. -/
def parseSpeaker (track : Option String) : TranscriptSpeaker :=
  match track with
  | none => .unknown
  | some t =>
    let normalized := toLowerStr t
    if strIncludes normalized "caller" || strIncludes normalized "customer"
        || strIncludes normalized "inbound" then .caller
    else if strIncludes normalized "outbound"
        || strIncludes normalized "callee"
        || strIncludes normalized "agent"
        || strIncludes normalized "recipient"
        || strIncludes normalized "other" then .other
    else .unknown

/-- Result of `parseTranscriptionData`. -/
structure TranscriptionData where
  text : Option String
  isFinal : Option Bool
  speakerHint : Option String
  timestampHint : Option String
  sourceHint : Option String
deriving DecidableEq

/-- `parseTranscriptionData`: fields mined from the embedded JSON blob;
a missing blob or a `JSON.parse` failure yields all-null fields. -/
def parseTranscriptionData (jsonParse : String → Option JsonValue)
    (rawData : Option String) : TranscriptionData :=
  match rawData with
  | none => ⟨none, none, none, none, none⟩
  | some raw =>
    match jsonParse raw with
    | none => ⟨none, none, none, none, none⟩
    | some parsed =>
      let record := asRecord parsed
      let segment : Option (List (String × JsonValue)) :=
        match record with
        | some r =>
          match recordGet r "segments" with
          | some (.arr xs) =>
            match xs.head? with
            | some v => asRecord v
            | none => none
          | _ => none
        | none => none
      { text := (readStringFromRecord record ["transcript", "text"]).orElse
          fun _ => readStringFromRecord segment ["transcript", "text"]
        isFinal := readBoolean
          ((readStringFromRecord record ["isFinal", "final"]).orElse
            fun _ => readStringFromRecord segment ["isFinal", "final"])
        speakerHint := (readStringFromRecord record
            ["track", "channel", "speaker", "role"]).orElse
          fun _ => readStringFromRecord segment
            ["track", "channel", "speaker", "role"]
        timestampHint := (readStringFromRecord record
            ["timestamp", "time", "createdAt"]).orElse
          fun _ => readStringFromRecord segment
            ["timestamp", "time", "createdAt"]
        sourceHint := (readStringFromRecord record
            ["id", "segmentId", "sequence"]).orElse
          fun _ => readStringFromRecord segment
            ["id", "segmentId", "sequence"] }

/-- `Array.prototype.join(sep)` on a list of strings. -/
def joinWith (sep : String) : List String → String
  | [] => ""
  | [x] => x
  | x :: xs => x ++ sep ++ joinWith sep xs

/-- `buildSourceEventId`: SHA-1 over call id, best-available segment
identifier, and the trimmed lower-cased text. -/
def buildSourceEventId (callSid : String) (transcriptionSid : Option String)
    (sequenceId : Option String) (segmentSid : Option String)
    (sourceHint : Option String) (timestamp : Int)
    (speaker : TranscriptSpeaker) (text : String) : String :=
  let composite := joinWith ":"
    (([transcriptionSid, sequenceId].filterMap id).filter fun s => s ≠ "")
  let primaryId :=
    match segmentSid with
    | some s => s
    | none =>
      match sourceHint with
      | some s => s
      | none =>
        if composite ≠ "" then composite
        else toString timestamp ++ ":" ++ speakerName speaker
  sha1Hex (joinWith "|" [callSid, primaryId, toLowerStr (trimStr text)])

/-- Parsed transcript payload of a webhook event. -/
structure ParsedTranscript where
  text : String
  speaker : TranscriptSpeaker
  isFinal : Bool
  timestamp : Int
  sourceEventId : String
deriving DecidableEq

/-- `ParsedTwilioWebhookEvent`. -/
structure ParsedTwilioWebhookEvent where
  callSid : Option String
  accountSid : Option String
  slug : Option String
  status : Option String
  transcript : Option ParsedTranscript
deriving DecidableEq

/-- `/(final|complete|stopped)/i.test(eventName)`. -/
def eventNameFinal (e : String) : Bool :=
  strIncludes (toLowerStr e) "final" || strIncludes (toLowerStr e) "complete"
    || strIncludes (toLowerStr e) "stopped"

/-- `parseTwilioWebhookEvent`.  `now` stands for `Date.now()` at the moment
the event is normalized. -/
def parseTwilioWebhookEvent (jsonParse : String → Option JsonValue)
    (dateParse : String → Option Int) (bodyParams : TwilioWebhookParams)
    (slugFromQuery : Option String) (now : Int) : ParsedTwilioWebhookEvent :=
  let callSid := readString bodyParams ["CallSid"]
  let accountSid := readString bodyParams ["AccountSid"]
  let status := readString bodyParams ["CallStatus"]
  let slug := slugFromQuery.orElse fun _ => readString bodyParams ["slug", "Slug"]
  let transcriptionData := parseTranscriptionData jsonParse
    (readString bodyParams ["TranscriptionData"])
  let transcriptText := (readString bodyParams
      ["TranscriptionText", "Transcript", "SpeechResult",
        "UnstableSpeechResult"]).orElse
    fun _ => transcriptionData.text
  match callSid, transcriptText with
  | some callSidV, some transcriptTextV =>
    let eventName := readString bodyParams
      ["TranscriptionEvent", "EventType", "SpeechEventType"]
    let explicitFinal := readBoolean (readString bodyParams ["IsFinal", "Final"])
    let isFinal := explicitFinal.getD (transcriptionData.isFinal.getD
      (match eventName with
        | some e => eventNameFinal e
        | none => false))
    let speakerHint := (readString bodyParams
        ["Track", "track", "Channel", "ChannelName", "ParticipantRole",
          "ParticipantLabel"]).orElse
      fun _ => transcriptionData.speakerHint
    let speaker := parseSpeaker speakerHint
    let timestamp := parseTimestamp dateParse
      ((readString bodyParams
          ["Timestamp", "Time", "SequenceStartTime",
            "TranscriptionTimestamp", "DateCreated"]).orElse
        fun _ => transcriptionData.timestampHint) now
    let sourceEventId := buildSourceEventId callSidV
      (readString bodyParams ["TranscriptionSid", "TranscriptionSessionSid"])
      (readString bodyParams ["SequenceId", "ResultIndex", "SegmentIndex"])
      (readString bodyParams ["TranscriptionSegmentSid", "SegmentSid"])
      transcriptionData.sourceHint timestamp speaker transcriptTextV
    { callSid, accountSid, slug, status,
      transcript := some
        { text := transcriptTextV, speaker, isFinal, timestamp,
          sourceEventId } }
  | _, _ => { callSid, accountSid, slug, status, transcript := none }

/-- Lexicographic insertion of a key into a sorted list. -/
def insertSorted (x : String) : List String → List String
  | [] => [x]
  | y :: ys => if x ≤ y then x :: y :: ys else y :: insertSorted x ys

/-- `Object.keys(params).sort()`: the distinct keys in lexicographic
order. -/
def sortedKeysOf (params : TwilioWebhookParams) : List String :=
  ((params.map fun kv => kv.1).dedup).foldr insertSorted []

/-- `computeTwilioSignature`: HMAC-SHA1 with the auth token over the URL
followed by each `key + value` pair in sorted key order, base64-encoded. -/
def computeTwilioSignature (authToken url : String)
    (params : TwilioWebhookParams) : String :=
  let payload := (sortedKeysOf params).foldl
    (fun acc key => acc ++ key ++ (paramGet params key).getD "") url
  String.mk (base64Encode (hmacSha1 (strBytes authToken) (strBytes payload)))

/-- `safeEqual`: the length check plus `timingSafeEqual` over the two UTF-8
buffers decide exactly byte equality, which coincides with string equality
(UTF-8 is injective); the constant-time execution property itself is not a
functional property and is outside this model. -/
def safeEqual (a b : String) : Bool :=
  a == b

/-- `isValidTwilioSignature`: some candidate URL's computed signature equals
the provided one. -/
def isValidTwilioSignature (authToken signature : String)
    (urlCandidates : List String) (bodyParams : TwilioWebhookParams) : Bool :=
  urlCandidates.any fun candidate =>
    safeEqual (computeTwilioSignature authToken candidate bodyParams) signature

/-! ## Claims about the webhook normalizer and authenticator -/

/-- C7: the signature check returns true exactly when the provided
signature equals the HMAC-SHA1-base64 signature computed (over the
candidate URL concatenated with the body parameters in sorted key order)
for at least one candidate URL; being a total function it returns `false`
on every mismatch rather than raising. -/
theorem isValidTwilioSignature_iff (authToken signature : String)
    (urlCandidates : List String) (bodyParams : TwilioWebhookParams) :
    isValidTwilioSignature authToken signature urlCandidates bodyParams
        = true ↔
      ∃ url ∈ urlCandidates,
        computeTwilioSignature authToken url bodyParams = signature := by
  simp [isValidTwilioSignature, safeEqual, List.any_eq_true]

/-- Nonempty joins of nonempty strings are nonempty. -/
theorem joinWith_ne_empty {sep : String} {l : List String} (hne : l ≠ [])
    (h : ∀ s ∈ l, s ≠ "") : joinWith sep l ≠ "" := by
  match l with
  | [] => exact absurd rfl hne
  | [a] => exact h a (List.mem_cons_self a [])
  | a :: b :: rest =>
    intro he
    apply h a (List.mem_cons_self a _)
    have hdata := congrArg String.data he
    rw [show joinWith sep (a :: b :: rest)
        = a ++ sep ++ joinWith sep (b :: rest) from rfl] at hdata
    simp only [String.data_append] at hdata
    rcases List.append_eq_nil.mp (List.append_eq_nil.mp hdata).1 with ⟨ha, -⟩
    cases a
    simp_all

/-- The idempotency key ignores the normalization-time clock whenever any
provider-supplied identifier is available: an explicit segment id, an
embedded source hint, or a nonempty session/sequence composite. -/
theorem buildSourceEventId_stable (callSid : String)
    (tSid seqId segSid srcHint : Option String) (t₁ t₂ : Int)
    (sp : TranscriptSpeaker) (text : String)
    (h : segSid ≠ none ∨ srcHint ≠ none ∨
      (([tSid, seqId].filterMap id).filter fun s => s ≠ "") ≠ []) :
    buildSourceEventId callSid tSid seqId segSid srcHint t₁ sp text =
      buildSourceEventId callSid tSid seqId segSid srcHint t₂ sp text := by
  unfold buildSourceEventId
  cases segSid with
  | some s => rfl
  | none =>
    cases srcHint with
    | some s => rfl
    | none =>
      have hco : (([tSid, seqId].filterMap id).filter fun s => s ≠ "") ≠ [] := by
        rcases h with h | h | h
        · exact absurd rfl h
        · exact absurd rfl h
        · exact h
      have hco' : joinWith ":"
          (([tSid, seqId].filterMap id).filter fun s => s ≠ "") ≠ "" :=
        joinWith_ne_empty hco fun s hs =>
          of_decide_eq_true (List.mem_filter.mp hs).2
      simp only [if_pos hco']

/-- C4 (amended): normalizing the same webhook payload (identical body
parameters and slug) at two different times yields the same
`sourceEventId`, provided the payload carries a provider identifier — an
explicit segment id, an embedded source hint, or a transcription-session or
sequence field.  Without any of those and without a timestamp field the key
incorporates the arrival clock and is not stable across runs; see
`Marlowe.sourceEventId_time_dependent`.  The statement quantifies over the
`JSON.parse` and `Date.parse` implementations, so it holds whatever those
pure functions return. -/
theorem parseTwilioWebhookEvent_key_stable
    (jsonParse : String → Option JsonValue) (dateParse : String → Option Int)
    (bodyParams : TwilioWebhookParams) (slugFromQuery : Option String)
    (now₁ now₂ : Int)
    (h : readString bodyParams ["TranscriptionSegmentSid", "SegmentSid"]
        ≠ none
      ∨ (parseTranscriptionData jsonParse
          (readString bodyParams ["TranscriptionData"])).sourceHint ≠ none
      ∨ (([readString bodyParams ["TranscriptionSid",
              "TranscriptionSessionSid"],
            readString bodyParams ["SequenceId", "ResultIndex",
              "SegmentIndex"]].filterMap id).filter
          fun s => s ≠ "") ≠ []) :
    ((parseTwilioWebhookEvent jsonParse dateParse bodyParams slugFromQuery
        now₁).transcript.map fun t => t.sourceEventId)
      = ((parseTwilioWebhookEvent jsonParse dateParse bodyParams
          slugFromQuery now₂).transcript.map fun t => t.sourceEventId) := by
  simp only [parseTwilioWebhookEvent]
  cases hc : readString bodyParams ["CallSid"] with
  | none => rfl
  | some callSidV =>
    cases ht : (readString bodyParams
        ["TranscriptionText", "Transcript", "SpeechResult",
          "UnstableSpeechResult"]).orElse
      (fun _ => (parseTranscriptionData jsonParse
        (readString bodyParams ["TranscriptionData"])).text) with
    | none => rfl
    | some transcriptTextV =>
      simp only [Option.map_some']
      exact congrArg some (buildSourceEventId_stable callSidV _ _ _ _ _ _ _ _
        h)

/-- C4 witness: a payload carrying `SegmentSid` gets the same idempotency
key when normalized at time 0 and at time 999. -/
theorem parseTwilioWebhookEvent_key_stable_witness :
    ((parseTwilioWebhookEvent (fun _ => none) (fun _ => none)
        [("CallSid", "CA123"), ("TranscriptionText", "hello"),
          ("SegmentSid", "SG1")] none 0).transcript.map
      fun t => t.sourceEventId)
      = ((parseTwilioWebhookEvent (fun _ => none) (fun _ => none)
          [("CallSid", "CA123"), ("TranscriptionText", "hello"),
            ("SegmentSid", "SG1")] none 999).transcript.map
        fun t => t.sourceEventId) :=
  parseTwilioWebhookEvent_key_stable (fun _ => none) (fun _ => none)
    [("CallSid", "CA123"), ("TranscriptionText", "hello"),
      ("SegmentSid", "SG1")] none 0 999 (by decide)

set_option maxRecDepth 100000 in
/-- C4 counterexample to the claim as stated: a payload with no segment id,
no session/sequence composite and no timestamp field falls back to the
arrival clock inside the hashed identifier, so normalizing the identical
payload in two runs (here at times 0 and 1000) yields different
`sourceEventId`s. -/
theorem sourceEventId_time_dependent :
    ((parseTwilioWebhookEvent (fun _ => none) (fun _ => none)
        [("CallSid", "CA123"), ("TranscriptionText", "hello")] none
        0).transcript.map fun t => t.sourceEventId)
      ≠ ((parseTwilioWebhookEvent (fun _ => none) (fun _ => none)
          [("CallSid", "CA123"), ("TranscriptionText", "hello")] none
          1000).transcript.map fun t => t.sourceEventId) := by
  decide

/-! ## Per-call advice scheduler (app/api/twilio/webhook `runAdviceForCall`)

The scheduler's storage and generation collaborators are pure oracles
indexed by iteration (`Except` failure models a thrown promise); successive
`Date.now()` readings are an oracle indexed by reading count;
`pendingObserved` models the value of the shared `pending` flag at the
loop's re-check, where concurrent triggers may have set it.  Advice values
are an arbitrary type `α` (the external generator's output).  Storage
writes are recorded rather than executed; write failures are swallowed by
the source's `.catch`/inner `try` and cannot escape, so they are not
modelled as throwing. -/

/-- `ADVICE_MIN_INTERVAL_MS` from the source. -/
def ADVICE_MIN_INTERVAL_MS : Int := 900

/-- `AdviceRunState` (process-local per-call scheduler state). -/
structure AdviceRunState where
  running : Bool
  pending : Bool
  lastRunAt : Int
deriving DecidableEq, Repr

/-- One recorded storage write of the scheduler.  Modelled from the spec:
`createDefaultAdvice` (lib/live-types) is not under src/, so the safe
default advice stored on generation failure is a distinguished value rather
than a structure; a generated advice is carried verbatim. -/
inductive SchedWrite (α : Type) where
  | setAnalyzing (flag : Bool)
  | setAdviceGenerated (advice : α)
  | setAdviceDefault (notice : String)
deriving DecidableEq

/-- The user-visible delay notice stored on generation failure. -/
def delayedNotice : String :=
  "Live analysis is delayed. Keep verifying through official channels."

/-- What `getLiveCallSummary` returns (only the fields the webhook path
reads: the stored slug and the last advice time). -/
structure LiveCallSummary where
  slug : Option String
  lastAdviceAt : Option Int
deriving DecidableEq

/-- Oracles for one scheduler run. -/
structure SchedulerEnv (α : Type) where
  summary : Nat → Except Unit (Option LiveCallSummary)
  transcriptLen : Nat → Except Unit Nat
  generate : Nat → Except Unit α
  clock : Nat → Int
  pendingObserved : Nat → Bool

/-- Outcome of one `runAdviceForCall` invocation: final per-call state,
recorded writes, and whether an unhandled storage-read failure escaped
(after the `finally` cleared `running`). -/
structure RunResult (α : Type) where
  state : AdviceRunState
  writes : List (SchedWrite α)
  threw : Bool
deriving DecidableEq

/-- Truthiness of `summary.lastAdviceAt && Date.now() - summary.lastAdviceAt
< ADVICE_MIN_INTERVAL_MS` (a stored time of `0` is falsy in the source). -/
def adviceFresh (lastAdviceAt : Option Int) (t : Int) : Bool :=
  match lastAdviceAt with
  | some stored => stored ≠ 0 && t - stored < ADVICE_MIN_INTERVAL_MS
  | none => false

/-- The `while (shouldRun)` loop of `runAdviceForCall`; `i` counts
iterations, `k` counts `Date.now()` readings, and the fuel bounds the
number of iterations (each real iteration either exits or re-enters only
when a concurrent trigger set `pending`). -/
def runAdviceLoop {α : Type} (env : SchedulerEnv α) :
    Nat → Nat → Nat → AdviceRunState → Bool → List (SchedWrite α) →
    RunResult α
  | 0, _, _, s, _, writes => ⟨{ s with running := false }, writes, false⟩
  | fuel + 1, i, k, s, force, writes =>
    let s := { s with pending := false }
    match env.summary i with
    | .error _ => ⟨{ s with running := false }, writes, true⟩
    | .ok none => ⟨{ s with running := false }, writes, false⟩
    | .ok (some summary) =>
      if force = false ∧ adviceFresh summary.lastAdviceAt (env.clock k) = true ∧
          env.clock (k + 1) - s.lastRunAt < ADVICE_MIN_INTERVAL_MS then
        ⟨{ s with running := false }, writes, false⟩
      else
        match env.transcriptLen i with
        | .error _ => ⟨{ s with running := false }, writes, true⟩
        | .ok 0 => ⟨{ s with running := false }, writes, false⟩
        | .ok (_ + 1) =>
          let writes := writes ++ [SchedWrite.setAnalyzing true]
          let writes := writes ++
            [match env.generate i with
              | .ok advice => SchedWrite.setAdviceGenerated advice
              | .error _ => SchedWrite.setAdviceDefault delayedNotice]
          let s := { s with lastRunAt := env.clock (k + 2) }
          let pend := env.pendingObserved i
          let s := { s with pending := pend }
          if pend then runAdviceLoop env fuel (i + 1) (k + 3) s false writes
          else ⟨{ s with running := false }, writes, false⟩

/-- `runAdviceForCall`: the entry gating (concurrent-run coalescing and the
minimum-interval debounce) followed by the generation loop.  The caller's
per-call state (the `store.get(callSid) ?? default`) is `s`. -/
def runAdviceForCall {α : Type} (env : SchedulerEnv α) (fuel : Nat)
    (s : AdviceRunState) (force : Bool) : RunResult α :=
  if s.running then ⟨{ s with pending := true }, [], false⟩
  else if force = false ∧ env.clock 0 - s.lastRunAt < ADVICE_MIN_INTERVAL_MS
      then ⟨s, [], false⟩
  else runAdviceLoop env fuel 0 1 { s with running := true } force []

/-! ## Claims about the advice scheduler -/

/-- C5: the trigger's entry gating.  If the per-call state is `running`,
the trigger only sets `pending := true` and returns — no writes, no
generation, no exception.  If it is not running, not forced, and less than
`ADVICE_MIN_INTERVAL_MS` (900 ms) has elapsed since `lastRunAt`, the
trigger returns with the state completely unchanged and schedules
nothing. -/
theorem runAdviceForCall_gating {α : Type} (env : SchedulerEnv α)
    (fuel : Nat) (s : AdviceRunState) (force : Bool) :
    (s.running = true →
      runAdviceForCall env fuel s force
        = ⟨{ s with pending := true }, [], false⟩) ∧
    (s.running = false → force = false →
      env.clock 0 - s.lastRunAt < ADVICE_MIN_INTERVAL_MS →
      runAdviceForCall env fuel s force = ⟨s, [], false⟩) := by
  constructor
  · intro h
    simp [runAdviceForCall, h]
  · intro h hf hlt
    simp [runAdviceForCall, h, hf, hlt]

/-- A trivial scheduler oracle for exercising the gating paths. -/
def schedProbeEnv : SchedulerEnv Unit :=
  { summary := fun _ => .ok none
    transcriptLen := fun _ => .ok 0
    generate := fun _ => .ok ()
    clock := fun _ => 0
    pendingObserved := fun _ => false }

/-- C5 witness: a running state only gains `pending`; a fresh state inside
the debounce window is returned untouched. -/
theorem runAdviceForCall_gating_witness :
    runAdviceForCall schedProbeEnv 1 ⟨true, false, 0⟩ false
        = ⟨⟨true, true, 0⟩, [], false⟩ ∧
    runAdviceForCall schedProbeEnv 1 ⟨false, false, 0⟩ false
        = ⟨⟨false, false, 0⟩, [], false⟩ :=
  ⟨(runAdviceForCall_gating schedProbeEnv 1 ⟨true, false, 0⟩ false).1 rfl,
    (runAdviceForCall_gating schedProbeEnv 1 ⟨false, false, 0⟩ false).2
      rfl rfl (by decide)⟩

/-- C6: when the external advice generation fails (or times out — the
bounded call rejecting is the same observable) in a scheduler iteration
that reached it, the run records the analyzing flag and then stores the
safe default advice together with the user-visible delay notice, finishes
with `running` cleared, and does not throw — the failure never escapes to
the webhook caller. -/
theorem runAdviceForCall_generation_failure {α : Type}
    (env : SchedulerEnv α) (fuel : Nat) (s : AdviceRunState) (force : Bool)
    (summary : LiveCallSummary) (n : Nat)
    (hrun : s.running = false)
    (hgate : ¬(force = false ∧
      env.clock 0 - s.lastRunAt < ADVICE_MIN_INTERVAL_MS))
    (hfuel : 1 ≤ fuel)
    (hsum : env.summary 0 = .ok (some summary))
    (hskip : ¬(force = false ∧
      adviceFresh summary.lastAdviceAt (env.clock 1) = true ∧
      env.clock 2 - s.lastRunAt < ADVICE_MIN_INTERVAL_MS))
    (htr : env.transcriptLen 0 = .ok (n + 1))
    (hgen : env.generate 0 = .error ())
    (hpend : env.pendingObserved 0 = false) :
    runAdviceForCall env fuel s force
      = ⟨⟨false, false, env.clock 3⟩,
          [SchedWrite.setAnalyzing true,
            SchedWrite.setAdviceDefault delayedNotice], false⟩ := by
  obtain ⟨f, rfl⟩ : ∃ f, fuel = f + 1 := ⟨fuel - 1, by omega⟩
  unfold runAdviceForCall
  rw [if_neg (by simp [hrun]), if_neg hgate]
  simp only [runAdviceLoop, hsum, hgen, htr, hpend]
  rw [if_neg (by simpa using hskip)]
  simp

/-- A scheduler oracle whose generation always fails. -/
def schedFailEnv : SchedulerEnv Unit :=
  { summary := fun _ => .ok (some ⟨none, none⟩)
    transcriptLen := fun _ => .ok 3
    generate := fun _ => .error ()
    clock := fun k => (k : Int) * 100
    pendingObserved := fun _ => false }

/-- C6 witness: a forced run against `schedFailEnv` completes normally and
stores the default advice with the delay notice. -/
theorem runAdviceForCall_generation_failure_witness :
    runAdviceForCall schedFailEnv 1 ⟨false, false, 0⟩ true
      = ⟨⟨false, false, 300⟩,
          [SchedWrite.setAnalyzing true,
            SchedWrite.setAdviceDefault delayedNotice], false⟩ :=
  (runAdviceForCall_generation_failure schedFailEnv 1 ⟨false, false, 0⟩
    true ⟨none, none⟩ 2 rfl (by decide) (by decide) rfl (by decide) rfl
    rfl rfl).trans (by decide)

/-! ## The webhook POST handler (app/api/twilio/webhook route)

`getTwilioConfig`, `shouldSkipTwilioWebhookValidation`,
`buildTwilioUrlCandidates` and `parseTwilioFormBody` read environment
variables or parse the HTTP request machinery; the handler model takes
their outputs (`twilioConfig`, `skipValidation`, `urlCandidates`,
`bodyParams`) as inputs.  Storage operations are `Except` oracles (`.error`
models a rejected promise, caught by the handler's `try`/`catch`); the
caught error's message is modelled by the handler's fallback text. -/

/-- `getTwilioConfig()`'s relevant fields. -/
structure TwilioConfig where
  accountSid : String
  authToken : String
deriving DecidableEq

/-- The JSON acknowledgment and HTTP status the handler responds with. -/
structure WebhookResponse where
  status : Nat
  ok : Bool
  error : Option String
deriving DecidableEq

/-- Storage oracles and scheduler context for one POST invocation. -/
structure PostEnv (α : Type) where
  existingSummary : Except Unit (Option LiveCallSummary)
  upsert : Except Unit Unit
  setStatus : Except Unit Unit
  append : Except Unit Unit
  sched : SchedulerEnv α
  schedState : AdviceRunState
  fuel : Nat

/-- `isValidSlug` from the route: `/^[a-z0-9-]{3,64}$/` on a present
slug. -/
def isValidSlug : Option String → Bool
  | none => false
  | some s =>
    decide (3 ≤ s.length) && decide (s.length ≤ 64) &&
      s.data.all fun c =>
        ('a' ≤ c && c ≤ 'z') || ('0' ≤ c && c ≤ '9') || c = '-'

/-- Session lifecycle states from lib/live-types. -/
inductive SessionStatus where
  | queued
  | ringing
  | live
  | ended
  | failed
deriving DecidableEq

/-- Modelled from the spec: `normalizeSessionStatus` (lib/live-types) is
not under src/.  Spec §4.4: the free-text provider status is canonicalized
by case-insensitive substring match — "fail"/"error" indicate the failed
terminal state, "end"/"complete"/"cancel" normal completion, then
"queue" → queued, "ring" → ringing, "in-progress"/"active"/"answer" →
live; unrecognized text keeps the session where it was (rendered here as
the initial state, which the webhook path never distinguishes). -/
def normalizeSessionStatus (raw : String) : SessionStatus :=
  let s := toLowerStr (trimStr raw)
  if strIncludes s "fail" || strIncludes s "error" then .failed
  else if strIncludes s "end" || strIncludes s "complete"
      || strIncludes s "cancel" then .ended
  else if strIncludes s "queue" then .queued
  else if strIncludes s "ring" then .ringing
  else if strIncludes s "in-progress" || strIncludes s "active"
      || strIncludes s "answer" then .live
  else .queued

/-- Modelled from the spec: `isTerminalStatus` (lib/live-types) is not
under src/; spec §4.4 names `ended` and `failed` as the terminal states. -/
def isTerminalStatus : SessionStatus → Bool
  | .ended => true
  | .failed => true
  | _ => false

/-- The handler's fallback error text for caught processing failures. -/
def processingFailedMessage : String :=
  "Twilio webhook processing failed."

/-- Session upsert, status write, transcript append and advice trigger —
the tail of the handler's `try` block once a slug was resolved. -/
def postProcess {α : Type} (event : ParsedTwilioWebhookEvent)
    (env : PostEnv α) : WebhookResponse :=
  match env.upsert with
  | .error _ => ⟨500, false, some processingFailedMessage⟩
  | .ok _ =>
    match (match event.status with
      | some _ => env.setStatus
      | none => .ok ()) with
    | .error _ => ⟨500, false, some processingFailedMessage⟩
    | .ok _ =>
      match event.transcript with
      | none => ⟨200, true, none⟩
      | some transcript =>
        match env.append with
        | .error _ => ⟨500, false, some processingFailedMessage⟩
        | .ok _ =>
          if (runAdviceForCall env.sched env.fuel env.schedState
              (transcript.isFinal || isTerminalStatus
                (normalizeSessionStatus (event.status.getD "")))).threw then
            ⟨500, false, some processingFailedMessage⟩
          else ⟨200, true, none⟩

/-- Dispatch on the outcome of slug resolution: propagate a storage error
as 500, a missing slug as 400, else process the event. -/
def postSlugDispatch {α : Type} (event : ParsedTwilioWebhookEvent)
    (env : PostEnv α) : Except Unit (Option String) → WebhookResponse
  | .error _ => ⟨500, false, some processingFailedMessage⟩
  | .ok none => ⟨400, false, some "Missing case slug for call session."⟩
  | .ok (some _) => postProcess event env

/-- The handler's `try` block: resolve the case slug (event slug when
valid, else the stored session's slug), reject with 400 when none, then
process. -/
def postTryBlock {α : Type} (event : ParsedTwilioWebhookEvent)
    (env : PostEnv α) : WebhookResponse :=
  postSlugDispatch event env
    (if isValidSlug event.slug then Except.ok event.slug
     else
       match env.existingSummary with
       | .error e => .error e
       | .ok summaryOpt => .ok (summaryOpt.bind fun s => s.slug))

/-- `event.accountSid` present and different from the configured account. -/
def accountMismatch (twilioConfig : Option TwilioConfig)
    (event : ParsedTwilioWebhookEvent) : Bool :=
  match twilioConfig, event.accountSid with
  | some config, some acc => acc != config.accountSid
  | _, _ => false

/-- The handler after authentication: acknowledge events with no call id,
reject account mismatches, then run the `try` block. -/
def postBody {α : Type} (event : ParsedTwilioWebhookEvent)
    (twilioConfig : Option TwilioConfig) (env : PostEnv α) :
    WebhookResponse :=
  match event.callSid with
  | none => ⟨200, true, none⟩
  | some _ =>
    if accountMismatch twilioConfig event then
      ⟨401, false, some "Twilio account mismatch."⟩
    else postTryBlock event env

/-- The POST handler, mirroring the route branch for branch. -/
def POST {α : Type} (jsonParse : String → Option JsonValue)
    (dateParse : String → Option Int) (twilioConfig : Option TwilioConfig)
    (skipValidation : Bool) (signature : Option String)
    (urlCandidates : List String) (bodyParams : TwilioWebhookParams)
    (slugFromQuery : Option String) (now : Int) (env : PostEnv α) :
    WebhookResponse :=
  if twilioConfig = none ∧ skipValidation = false then
    ⟨500, false, some "Twilio server configuration is missing."⟩
  else
    let authCheck : Option WebhookResponse :=
      if skipValidation then none
      else
        match twilioConfig with
        | none =>
          some ⟨500, false, some "Twilio server configuration is missing."⟩
        | some config =>
          match signature with
          | none => some ⟨401, false, some "Missing Twilio signature."⟩
          | some sig =>
            if isValidTwilioSignature config.authToken sig urlCandidates
                bodyParams then none
            else some ⟨401, false, some "Invalid Twilio signature."⟩
    match authCheck with
    | some resp => resp
    | none =>
      postBody (parseTwilioWebhookEvent jsonParse dateParse bodyParams
        slugFromQuery now) twilioConfig env

/-- A storage operation or the background advice run failed during
processing. -/
def postStorageFailure {α : Type} (env : PostEnv α) : Prop :=
  env.existingSummary = .error () ∨ env.upsert = .error () ∨
    env.setStatus = .error () ∨ env.append = .error () ∨
    ∃ forceFlag,
      (runAdviceForCall env.sched env.fuel env.schedState forceFlag).threw
        = true

/-- No valid slug on the event and none stored for the session. -/
def postSlugMissing {α : Type} (event : ParsedTwilioWebhookEvent)
    (env : PostEnv α) : Prop :=
  isValidSlug event.slug = false ∧
    (env.existingSummary = .ok none ∨
      ∃ summary, env.existingSummary = .ok (some summary) ∧
        summary.slug = none)

/-- An authentication failure: missing signature, signature matching no
candidate URL, or an account mismatch. -/
def postAuthFailure (twilioConfig : Option TwilioConfig)
    (skipValidation : Bool) (signature : Option String)
    (urlCandidates : List String) (bodyParams : TwilioWebhookParams)
    (event : ParsedTwilioWebhookEvent) : Prop :=
  (skipValidation = false ∧ signature = none) ∨
    (skipValidation = false ∧ ∃ config sig, twilioConfig = some config ∧
      signature = some sig ∧
      isValidTwilioSignature config.authToken sig urlCandidates bodyParams
        = false) ∨
    (∃ config acc, twilioConfig = some config ∧
      event.accountSid = some acc ∧ acc ≠ config.accountSid)

theorem postProcess_non2xx {α : Type} (event : ParsedTwilioWebhookEvent)
    (env : PostEnv α) (h : (postProcess event env).status ≠ 200) :
    postStorageFailure env := by
  unfold postProcess at h
  split at h
  · rename_i heq
    exact Or.inr (Or.inl (by rw [heq]))
  · rename_i heq
    split at h
    · rename_i heq2
      cases hst : event.status with
      | some st =>
        rw [hst] at heq2
        simp only [] at heq2
        refine Or.inr (Or.inr (Or.inl ?_))
        cases hset : env.setStatus with
        | error e => rfl
        | ok u => rw [hset] at heq2; simp at heq2
      | none =>
        rw [hst] at heq2
        simp at heq2
    · split at h
      · exact absurd rfl h
      · rename_i transcript htr
        split at h
        · rename_i heq3
          exact Or.inr (Or.inr (Or.inr (Or.inl (by rw [heq3]))))
        · split at h
          · rename_i hthrew
            exact Or.inr (Or.inr (Or.inr (Or.inr ⟨_, hthrew⟩)))
          · exact absurd rfl h

theorem postTryBlock_non2xx {α : Type} (event : ParsedTwilioWebhookEvent)
    (env : PostEnv α) (h : (postTryBlock event env).status ≠ 200) :
    postSlugMissing event env ∨ postStorageFailure env := by
  unfold postTryBlock at h
  by_cases hslug : isValidSlug event.slug = true
  · rw [if_pos hslug] at h
    cases hes : event.slug with
    | none => rw [hes] at hslug; exact absurd hslug (by simp [isValidSlug])
    | some s =>
      rw [hes] at h
      exact Or.inr (postProcess_non2xx event env h)
  · rw [if_neg hslug] at h
    cases hsum : env.existingSummary with
    | error e => exact Or.inr (Or.inl (by rw [hsum]))
    | ok summaryOpt =>
      rw [hsum] at h
      cases summaryOpt with
      | none =>
        exact Or.inl ⟨by simpa using hslug, Or.inl (by rw [hsum])⟩
      | some summary =>
        replace h : (postSlugDispatch event env
            (Except.ok summary.slug)).status ≠ 200 := h
        cases hsl : summary.slug with
        | none =>
          exact Or.inl ⟨by simpa using hslug,
            Or.inr ⟨summary, by rw [hsum], hsl⟩⟩
        | some s =>
          rw [hsl] at h
          exact Or.inr (postProcess_non2xx event env h)

theorem postBody_non2xx {α : Type} (event : ParsedTwilioWebhookEvent)
    (twilioConfig : Option TwilioConfig) (env : PostEnv α)
    (h : (postBody event twilioConfig env).status ≠ 200) :
    (∃ config acc, twilioConfig = some config ∧
      event.accountSid = some acc ∧ acc ≠ config.accountSid) ∨
      postSlugMissing event env ∨ postStorageFailure env := by
  unfold postBody at h
  cases hcall : event.callSid with
  | none =>
    rw [hcall] at h
    exact absurd rfl h
  | some cs =>
    rw [hcall] at h
    by_cases hm : accountMismatch twilioConfig event = true
    · left
      unfold accountMismatch at hm
      cases hcfg : twilioConfig with
      | none => rw [hcfg] at hm; cases hm
      | some config =>
        rw [hcfg] at hm
        cases hacc : event.accountSid with
        | none => rw [hacc] at hm; cases hm
        | some acc =>
          rw [hacc] at hm
          simp only [bne_iff_ne] at hm
          exact ⟨config, acc, rfl, rfl, hm⟩
    · rw [if_neg hm] at h
      exact Or.inr (postTryBlock_non2xx event env h)

/-- C3 (amended): the webhook POST handler responds with a non-2xx status
only for missing server configuration, an authentication failure
(bad or missing signature, account mismatch), an unresolvable case slug
(rejected 400), or a storage/background failure during processing
(rejected 500 by the handler's catch); events without a call id are still
acknowledged with 2xx `ok: true`.  As originally stated — with storage
errors also acknowledged 2xx — the claim fails; see
`Marlowe.POST_storage_error_rejected`. -/
theorem POST_non2xx_causes {α : Type} (jsonParse : String → Option JsonValue)
    (dateParse : String → Option Int) (twilioConfig : Option TwilioConfig)
    (skipValidation : Bool) (signature : Option String)
    (urlCandidates : List String) (bodyParams : TwilioWebhookParams)
    (slugFromQuery : Option String) (now : Int) (env : PostEnv α) :
    ((POST jsonParse dateParse twilioConfig skipValidation signature
        urlCandidates bodyParams slugFromQuery now env).status ≠ 200 →
      (twilioConfig = none ∧ skipValidation = false) ∨
        postAuthFailure twilioConfig skipValidation signature urlCandidates
          bodyParams (parseTwilioWebhookEvent jsonParse dateParse bodyParams
            slugFromQuery now) ∨
        postSlugMissing (parseTwilioWebhookEvent jsonParse dateParse
          bodyParams slugFromQuery now) env ∨
        postStorageFailure env) ∧
    (skipValidation = true →
      (parseTwilioWebhookEvent jsonParse dateParse bodyParams slugFromQuery
        now).callSid = none →
      POST jsonParse dateParse twilioConfig skipValidation signature
        urlCandidates bodyParams slugFromQuery now env
        = ⟨200, true, none⟩) := by
  have dispatch : (postBody (parseTwilioWebhookEvent jsonParse dateParse
      bodyParams slugFromQuery now) twilioConfig env).status ≠ 200 →
      (twilioConfig = none ∧ skipValidation = false) ∨
        postAuthFailure twilioConfig skipValidation signature urlCandidates
          bodyParams (parseTwilioWebhookEvent jsonParse dateParse bodyParams
            slugFromQuery now) ∨
        postSlugMissing (parseTwilioWebhookEvent jsonParse dateParse
          bodyParams slugFromQuery now) env ∨
        postStorageFailure env := by
    intro hb
    rcases postBody_non2xx _ _ _ hb with hm | hs | hst
    · exact Or.inr (Or.inl (Or.inr (Or.inr hm)))
    · exact Or.inr (Or.inr (Or.inl hs))
    · exact Or.inr (Or.inr (Or.inr hst))
  constructor
  · intro h
    unfold POST at h
    by_cases h1 : twilioConfig = none ∧ skipValidation = false
    · exact Or.inl h1
    rw [if_neg h1] at h
    by_cases hskip : skipValidation = true
    · rw [hskip] at h
      simp at h
      exact dispatch h
    · have hskip' : skipValidation = false := by simpa using hskip
      rw [hskip'] at h
      simp only [Bool.false_eq_true, if_false] at h
      cases hcfg : twilioConfig with
      | none => exact absurd ⟨hcfg, hskip'⟩ h1
      | some config =>
        rw [hcfg] at h
        simp only [] at h
        cases hsig : signature with
        | none => exact Or.inr (Or.inl (Or.inl ⟨hskip', rfl⟩))
        | some sig =>
          rw [hsig] at h
          simp only [] at h
          by_cases hv : isValidTwilioSignature config.authToken sig
              urlCandidates bodyParams = true
          · rw [if_pos hv] at h
            simp only [] at h
            rw [← hcfg] at h
            rw [← hcfg, ← hsig]
            exact dispatch h
          · exact Or.inr (Or.inl (Or.inr (Or.inl
              ⟨hskip', config, sig, rfl, rfl, by simpa using hv⟩)))
  · intro hskip hcall
    simp [POST, postBody, hskip, hcall]

/-- Body parameters of a minimal status-only event for an existing call. -/
def cxParams : TwilioWebhookParams := [("CallSid", "CA1")]

/-- A present server configuration. -/
def cxConfig : TwilioConfig := ⟨"AC1", "tok"⟩

/-- A storage oracle whose session upsert fails. -/
def postFailStoreEnv : PostEnv Unit :=
  { existingSummary := .ok none
    upsert := .error ()
    setStatus := .ok ()
    append := .ok ()
    sched := schedProbeEnv
    schedState := ⟨false, false, 0⟩
    fuel := 1 }

/-- C3 witness: at the storage-failing input the non-2xx response indeed
falls under the amended causes, and an event without a call id is
acknowledged with 2xx `ok: true` even against the failing store. -/
theorem POST_non2xx_causes_witness :
    ((some cxConfig = none ∧ true = false) ∨
      postAuthFailure (some cxConfig) true none [] cxParams
        (parseTwilioWebhookEvent (fun _ => none) (fun _ => none) cxParams
          (some "my-case") 0) ∨
      postSlugMissing (parseTwilioWebhookEvent (fun _ => none)
        (fun _ => none) cxParams (some "my-case") 0) postFailStoreEnv ∨
      postStorageFailure postFailStoreEnv) ∧
    POST (fun _ => none) (fun _ => none) (some cxConfig) true none []
      [("Foo", "bar")] (some "my-case") 0 postFailStoreEnv
      = ⟨200, true, none⟩ :=
  ⟨(POST_non2xx_causes (fun _ => none) (fun _ => none) (some cxConfig) true
      none [] cxParams (some "my-case") 0 postFailStoreEnv).1 (by decide),
    (POST_non2xx_causes (fun _ => none) (fun _ => none) (some cxConfig) true
      none [] [("Foo", "bar")] (some "my-case") 0 postFailStoreEnv).2 rfl
      (by decide)⟩

/-- C3 counterexample to the claim as stated: a well-formed event for a
valid case slug whose session upsert hits a storage error is rejected with
status 500 — not acknowledged with 2xx `ok: true` as the claim requires —
although the request is authenticated (validation skipped by explicit
configuration) and the server configuration is present. -/
theorem POST_storage_error_rejected :
    POST (fun _ => none) (fun _ => none) (some cxConfig) true none []
      cxParams (some "my-case") 0 postFailStoreEnv
      = ⟨500, false, some processingFailedMessage⟩ := by decide

end Marlowe
